import Mathlib

/-!
# Verification of the OSINT URL-reputation engine (`src/server/osint.js`)

This file gives a shallow embedding of the lookup/aggregation engine of the
repository: URL normalization (`normalizeUrl`), URL extraction from text
(`extractUrlsFromText`), the single-flight TTL cache over the URLHaus bulk
feed (`UrlhausCache`), and the aggregating service (`OsintService`).

Modelling conventions:
* JavaScript strings are modelled as `List Nat` of their character codes
  (the engine only ever treats URLs and feed lines as ASCII data; the bridge
  `strCodes` converts a Lean string literal to this representation).
* The platform's WHATWG `new URL(...)` parser is modelled by `parseL` on a
  restricted but faithful subset: `http`/`https` URLs without userinfo,
  IPv6/IPv4 hosts or backslashes, with host, path and query drawn from
  character sets on which the WHATWG serializer is the identity and no
  dot-segment or percent-encoding rewriting happens.  On that subset
  `parseL`/`serializeL` reproduce `new URL(candidate)` / `url.toString()`
  exactly; outside it `parseL` returns `none` (a domain restriction of the
  model, not a behavioural claim).
* JavaScript `async` code is modelled as a state machine whose atomic steps
  are the code segments between `await` points: `loadModel` is the body of
  `UrlhausCache.load`, `fetchFeedModel` the continuation of
  `UrlhausCache.fetchFeed` once the network response (or failure) is known.
  The in-flight promise `this.loading` is modelled by an `Option Nat`
  ticket; each started refresh consumes a fresh ticket, so the number of
  issued remote fetches is the number of consumed tickets.
* Promise rejections are modelled by `Except (List Nat) _` (the `List Nat`
  is the error message).
-/

/-- Character codes of a Lean string literal: the bridge from string
literals to the `List Nat` model of JavaScript strings. -/
def strCodes (s : String) : List Nat := s.toList.map Char.toNat

instance {ε α : Type} [DecidableEq ε] [DecidableEq α] : DecidableEq (Except ε α) :=
  fun x y =>
    match x, y with
    | .ok a, .ok b =>
      if h : a = b then isTrue (by rw [h])
      else isFalse (fun hc => h (Except.ok.inj hc))
    | .error a, .error b =>
      if h : a = b then isTrue (by rw [h])
      else isFalse (fun hc => h (Except.error.inj hc))
    | .ok _, .error _ => isFalse (fun hc => Except.noConfusion hc)
    | .error _, .ok _ => isFalse (fun hc => Except.noConfusion hc)

/-- `String.prototype.toLowerCase` on one ASCII character code
(uppercase letters `A`–`Z` map to `a`–`z`, everything else is fixed). -/
def jsLower (c : Nat) : Nat := if 65 ≤ c ∧ c ≤ 90 then c + 32 else c

/-- `String.prototype.toLowerCase` on a whole string. -/
def lowerStr (s : List Nat) : List Nat := s.map jsLower

/-- ASCII whitespace trimmed by `String.prototype.trim`. -/
def wsChar (c : Nat) : Bool := decide (c = 9 ∨ c = 10 ∨ c = 11 ∨ c = 12 ∨ c = 13 ∨ c = 32)

/-- `String.prototype.trim`: drop whitespace from both ends. -/
def trimL (s : List Nat) : List Nat :=
  ((s.dropWhile wsChar).reverse.dropWhile wsChar).reverse

/-- Decimal digit character code. -/
def isDigitC (c : Nat) : Bool := decide (48 ≤ c ∧ c ≤ 57)

/-- Value of a list of decimal digit codes (most significant first). -/
def digitsVal (l : List Nat) : Nat := l.foldl (fun a c => a * 10 + (c - 48)) 0

/-- Canonical decimal digit codes of a natural number (no leading zeros). -/
def natDigits (n : Nat) : List Nat :=
  if h : n < 10 then [n + 48] else natDigits (n / 10) ++ [n % 10 + 48]
termination_by n
decreasing_by exact Nat.div_lt_self (by omega) (by omega)

/-- Strip a (case-insensitively) matching prefix, returning the remainder. -/
def stripCI : List Nat → List Nat → Option (List Nat)
  | [], s => some s
  | p :: ps, c :: cs => if jsLower c = p then stripCI ps cs else none
  | _ :: _, [] => none

/-- Prepend a character to the first piece of a split. -/
def consHeadN (c : Nat) : List (List Nat) → List (List Nat)
  | [] => [[c]]
  | s :: ss => (c :: s) :: ss

/-- Split a list at every occurrence of the separator code `sep`. -/
def splitOnC (sep : Nat) : List Nat → List (List Nat)
  | [] => [[]]
  | c :: rest =>
    if c = sep then [] :: splitOnC sep rest else consHeadN c (splitOnC sep rest)

/-- Association-list model of a JavaScript `Map`: `set` replaces the value
of an existing key in place, otherwise appends. -/
def mapSet {β : Type} : List (List Nat × β) → List Nat → β → List (List Nat × β)
  | [], k, v => [(k, v)]
  | (k', v') :: rest, k, v =>
    if k' = k then (k', v) :: rest else (k', v') :: mapSet rest k v

/-- Association-list model of `Map.prototype.get`. -/
def mapGet {β : Type} : List (List Nat × β) → List Nat → Option β
  | [], _ => none
  | (k', v') :: rest, k => if k' = k then some v' else mapGet rest k

/-! ## The WHATWG URL model -/

/-- Character codes of `"https"`. -/
def schemeHttps : List Nat := [104, 116, 116, 112, 115]

/-- Character codes of `"http"`. -/
def schemeHttp : List Nat := [104, 116, 116, 112]

/-- Character codes of `"://"`. -/
def sepSS : List Nat := [58, 47, 47]

/-- A parsed URL in the modelled subset (all strings are char-code lists).
`host` is stored lowercased, `port` numerically with the scheme default
represented as `none`, `path` always starts with `/`. -/
structure JSURL where
  scheme : List Nat
  host : List Nat
  port : Option Nat
  path : List Nat
  query : Option (List Nat)
  fragment : Option (List Nat)
deriving DecidableEq

/-- Default port of a scheme (443 for `https`, 80 for `http`). -/
def defaultPort (scheme : List Nat) : Nat := if scheme = schemeHttps then 443 else 80

/-- Authority terminators: `/`, `?`, `#`. -/
def authTerm (c : Nat) : Bool := decide (c = 47 ∨ c = 63 ∨ c = 35)

/-- Path terminators: `?`, `#`. -/
def pathTerm (c : Nat) : Bool := decide (c = 63 ∨ c = 35)

/-- Split the authority at the first `:` into host and optional port text. -/
def splitFirstColon : List Nat → List Nat × Option (List Nat)
  | [] => ([], none)
  | c :: rest =>
    if c = 58 then ([], some rest)
    else
      let p := splitFirstColon rest
      (c :: p.1, p.2)

/-- Split what follows the path into query and fragment parts. -/
def parseQF (l : List Nat) : Option (List Nat) × Option (List Nat) :=
  match l with
  | [] => (none, none)
  | c :: rest =>
    if c = 63 then
      let q := rest.takeWhile (fun d => decide (d ≠ 35))
      let fr := rest.dropWhile (fun d => decide (d ≠ 35))
      (some q, match fr with | [] => none | _ :: fr' => some fr')
    else if c = 35 then (none, some rest)
    else (none, none)

/-- Host characters accepted by the model (after lowercasing): lowercase
letters, digits, `.`, `-`, `_`. -/
def hostChar (c : Nat) : Bool :=
  decide ((97 ≤ c ∧ c ≤ 122) ∨ (48 ≤ c ∧ c ≤ 57) ∨ c = 46 ∨ c = 45 ∨ c = 95)

/-- Last nonempty element of a list of lists (used for the final host label). -/
def lastNonempty : List (List Nat) → List Nat
  | [] => []
  | l :: rest =>
    let r := lastNonempty rest
    if r = [] then l else r

/-- Hosts whose final label is numeric (or `0x`-prefixed) are IPv4 candidates
in WHATWG parsing and are outside the modelled subset. -/
def ipv4ishLast (h : List Nat) : Bool :=
  let L := lastNonempty (splitOnC 46 h)
  decide (L ≠ []) && (L.all isDigitC || decide (L.take 2 = [48, 120]))

/-- Valid model host: nonempty, allowed characters, not IPv4-like. -/
def validHost (h : List Nat) : Bool :=
  decide (h ≠ []) && h.all hostChar && !ipv4ishLast h

/-- Path characters on which the WHATWG serializer is the identity:
ASCII alphanumerics and `- . _ ~ ! $ & ' ( ) * + , ; = : @ / %`. -/
def pathChar (c : Nat) : Bool :=
  decide ((48 ≤ c ∧ c ≤ 57) ∨ (65 ≤ c ∧ c ≤ 90) ∨ (97 ≤ c ∧ c ≤ 122) ∨
    c = 45 ∨ c = 46 ∨ c = 95 ∨ c = 126 ∨ c = 33 ∨ c = 36 ∨ c = 38 ∨ c = 39 ∨
    c = 40 ∨ c = 41 ∨ c = 42 ∨ c = 43 ∨ c = 44 ∨ c = 59 ∨ c = 61 ∨ c = 58 ∨
    c = 64 ∨ c = 47 ∨ c = 37)

/-- Path segments that trigger WHATWG dot-segment handling (`.`, `..` and
their `%2e` spellings); excluded from the modelled subset. -/
def badSeg (seg : List Nat) : Bool :=
  decide (lowerStr seg ∈ [[46], [46, 46], [37, 50, 101], [37, 50, 101, 37, 50, 101],
    [46, 37, 50, 101], [37, 50, 101, 46]])

/-- Valid model path: starts with `/`, allowed characters, no dot segments. -/
def validPath (p : List Nat) : Bool :=
  decide (p.head? = some 47) && p.all pathChar && (splitOnC 47 p).all (fun s => !badSeg s)

/-- Query characters on which the WHATWG serializer is the identity (the
path set without `'`, which the query serializer percent-encodes, plus `?`). -/
def queryChar (c : Nat) : Bool :=
  decide ((48 ≤ c ∧ c ≤ 57) ∨ (65 ≤ c ∧ c ≤ 90) ∨ (97 ≤ c ∧ c ≤ 122) ∨
    c = 45 ∨ c = 46 ∨ c = 95 ∨ c = 126 ∨ c = 33 ∨ c = 36 ∨ c = 38 ∨
    c = 40 ∨ c = 41 ∨ c = 42 ∨ c = 43 ∨ c = 44 ∨ c = 59 ∨ c = 61 ∨ c = 58 ∨
    c = 64 ∨ c = 47 ∨ c = 37 ∨ c = 63)

/-- Valid model query. -/
def validQuery : Option (List Nat) → Bool
  | none => true
  | some q => q.all queryChar

/-- Recognise and remove the scheme of a candidate URL (case-insensitive),
tried in the order `https://` then `http://`. -/
def stripScheme (s : List Nat) : Option (List Nat × List Nat) :=
  match stripCI (schemeHttps ++ sepSS) s with
  | some r => some (schemeHttps, r)
  | none =>
    match stripCI (schemeHttp ++ sepSS) s with
    | some r => some (schemeHttp, r)
    | none => none

/-- Parse and canonicalise the port text (empty means no port, the scheme
default is normalised away, out-of-range or non-numeric ports are fatal). -/
def parsePort (scheme : List Nat) : Option (List Nat) → Option (Option Nat)
  | none => some none
  | some pr =>
    if pr = [] then some none
    else if pr.all isDigitC then
      let v := digitsVal pr
      if v < 65536 then some (if v = defaultPort scheme then none else some v) else none
    else none

/-- The stage of URL parsing after the scheme has been recognised: split off
the authority, split host from port, lowercase the host, canonicalise the
port, default an empty path to `/`, split query and fragment, and validate. -/
def parseAfterScheme (scheme rest : List Nat) : Option JSURL :=
  let auth := rest.takeWhile (fun c => !authTerm c)
  let rest2 := rest.dropWhile (fun c => !authTerm c)
  if auth.any (fun c => decide (c = 64 ∨ c = 91 ∨ c = 93)) then none
  else
    let hp := splitFirstColon auth
    let host := lowerStr hp.1
    match parsePort scheme hp.2 with
    | none => none
    | some port =>
      let pathRaw := rest2.takeWhile (fun c => !pathTerm c)
      let rest3 := rest2.dropWhile (fun c => !pathTerm c)
      let path := if pathRaw = [] then [47] else pathRaw
      let qf := parseQF rest3
      if validHost host && validPath path && validQuery qf.1 then
        some ⟨scheme, host, port, path, qf.1, qf.2⟩
      else none

/-- Model of the platform `new URL(s)` on the modelled subset: splits the
input into scheme, authority, path, query and fragment, lowercases the
host, canonicalises the port, defaults an empty path to `/`, and rejects
inputs outside the subset. -/
def parseL (s : List Nat) : Option JSURL :=
  match stripScheme s with
  | none => none
  | some (scheme, rest) => parseAfterScheme scheme rest

/-- The `:port` piece of a serialized URL (empty for the default port). -/
def portPart (u : JSURL) : List Nat :=
  match u.port with | none => [] | some p => 58 :: natDigits p

/-- The `?query` piece of a serialized URL. -/
def queryPart (u : JSURL) : List Nat :=
  match u.query with | none => [] | some q => 63 :: q

/-- The `#fragment` piece of a serialized URL. -/
def fragPart (u : JSURL) : List Nat :=
  match u.fragment with | none => [] | some f => 35 :: f

/-- Model of `url.toString()` (the WHATWG serializer) on the subset. -/
def serializeL (u : JSURL) : List Nat :=
  u.scheme ++ sepSS ++ ((u.host ++ portPart u) ++ (u.path ++ (queryPart u ++ fragPart u)))

/-- The invariants `parseL` guarantees about its output (and under which
`serializeL` round-trips). -/
def ValidU (u : JSURL) : Prop :=
  (u.scheme = schemeHttp ∨ u.scheme = schemeHttps) ∧
  validHost u.host = true ∧
  (∀ p, u.port = some p → p < 65536 ∧ p ≠ defaultPort u.scheme) ∧
  validPath u.path = true ∧
  validQuery u.query = true

/-! ## `normalizeUrl` (osint.js lines 7–20) -/

/-- The test `/^https?:\/\//i.test(trimmed)` of osint.js line 10. -/
def startsHttpRegex (s : List Nat) : Bool :=
  (stripCI (schemeHttp ++ sepSS) s).isSome || (stripCI (schemeHttps ++ sepSS) s).isSome

/-- Lines 14–15 of osint.js: remove exactly one trailing `/` if present. -/
def maybeDropSlash (l : List Nat) : List Nat :=
  if l.getLast? = some 47 then l.dropLast else l

/-- Model of `normalizeUrl` (osint.js lines 7–20): reject empty input, trim,
default the scheme to `https`, parse, clear the fragment, serialize, remove
exactly one trailing `/`, lowercase.  `none` models the `null` returns. -/
def normalizeL (input : List Nat) : Option (List Nat) :=
  if input = [] then none
  else
    let trimmed := trimL input
    let candidate :=
      if startsHttpRegex trimmed then trimmed else schemeHttps ++ sepSS ++ trimmed
    match parseL candidate with
    | none => none
    | some url =>
      some (lowerStr (maybeDropSlash (serializeL { url with fragment := none })))

/-! ## Basic lemmas about characters and strings -/

theorem jsLower_of_not_upper {c : Nat} (h : ¬(65 ≤ c ∧ c ≤ 90)) : jsLower c = c := by
  simp [jsLower, h]

theorem jsLower_idem (c : Nat) : jsLower (jsLower c) = jsLower c := by
  by_cases h : 65 ≤ c ∧ c ≤ 90
  · simp only [jsLower, if_pos h]
    rw [if_neg]; omega
  · simp only [jsLower, if_neg h]

theorem jsLower_eq_slash {c : Nat} : jsLower c = 47 ↔ c = 47 := by
  unfold jsLower
  split
  · constructor <;> (intro h; omega)
  · exact Iff.rfl

theorem lowerStr_append (l₁ l₂ : List Nat) :
    lowerStr (l₁ ++ l₂) = lowerStr l₁ ++ lowerStr l₂ := List.map_append _ _ _

theorem lowerStr_eq_self {l : List Nat} (h : ∀ c ∈ l, jsLower c = c) : lowerStr l = l := by
  induction l with
  | nil => rfl
  | cons c cs ih =>
    simp only [lowerStr, List.map_cons] at ih ⊢
    rw [h c (by simp), ih (fun d hd => h d (by simp [hd]))]

theorem eq_self_of_lowerStr {l : List Nat} (h : lowerStr l = l) : ∀ c ∈ l, jsLower c = c := by
  induction l with
  | nil => simp
  | cons c cs ih =>
    simp only [lowerStr, List.map_cons, List.cons.injEq] at h
    intro d hd
    rcases List.mem_cons.mp hd with rfl | hd
    · exact h.1
    · exact ih h.2 d hd

theorem lowerStr_idem (l : List Nat) : lowerStr (lowerStr l) = lowerStr l :=
  lowerStr_eq_self (by
    intro c hc
    obtain ⟨d, _, rfl⟩ := List.mem_map.mp hc
    exact jsLower_idem d)

theorem getLast?_lowerStr (l : List Nat) :
    (lowerStr l).getLast? = l.getLast?.map jsLower := List.getLast?_map _ _

theorem lowerStr_maybeDropSlash (l : List Nat) :
    lowerStr (maybeDropSlash l) = maybeDropSlash (lowerStr l) := by
  unfold maybeDropSlash
  by_cases h : l.getLast? = some 47
  · rw [if_pos h, if_pos (by rw [getLast?_lowerStr, h]; decide)]
    simp only [lowerStr]
    exact List.map_dropLast _ _
  · rw [if_neg h, if_neg]
    intro hc
    rw [getLast?_lowerStr] at hc
    rcases hl : l.getLast? with _ | c
    · rw [hl] at hc; simp at hc
    · rw [hl] at hc
      simp only [Option.map_some', Option.some.injEq] at hc
      exact h (by rw [hl, jsLower_eq_slash.mp hc])

/-! ## Lemmas about `stripCI` and `stripScheme` -/

theorem stripCI_lower_append : ∀ (l r : List Nat), stripCI (lowerStr l) (l ++ r) = some r
  | [], _ => rfl
  | c :: cs, r => by
    simp only [lowerStr, List.map_cons, List.cons_append, stripCI, if_pos rfl]
    exact stripCI_lower_append cs r

theorem stripCI_self_append (pre r : List Nat) (h : lowerStr pre = pre) :
    stripCI pre (pre ++ r) = some r := by
  nth_rewrite 1 [← h]
  exact stripCI_lower_append pre r

theorem lowerStr_https_sep : lowerStr (schemeHttps ++ sepSS) = schemeHttps ++ sepSS := by decide

theorem lowerStr_http_sep : lowerStr (schemeHttp ++ sepSS) = schemeHttp ++ sepSS := by decide

theorem stripCI_https_on_http (r : List Nat) :
    stripCI (schemeHttps ++ sepSS) (schemeHttp ++ (sepSS ++ r)) = none := by
  simp [schemeHttps, schemeHttp, sepSS, stripCI, jsLower]

theorem stripCI_http_on_https (r : List Nat) :
    stripCI (schemeHttp ++ sepSS) (schemeHttps ++ (sepSS ++ r)) = none := by
  simp [schemeHttps, schemeHttp, sepSS, stripCI, jsLower]

theorem stripScheme_append (sch tail : List Nat) (h : sch = schemeHttp ∨ sch = schemeHttps) :
    stripScheme (sch ++ sepSS ++ tail) = some (sch, tail) := by
  rcases h with h | h <;> subst h
  · unfold stripScheme
    rw [List.append_assoc, stripCI_https_on_http, ← List.append_assoc,
      stripCI_self_append _ _ lowerStr_http_sep]
  · unfold stripScheme
    rw [stripCI_self_append _ _ lowerStr_https_sep]

theorem stripScheme_schemes {s sch rest : List Nat}
    (h : stripScheme s = some (sch, rest)) : sch = schemeHttp ∨ sch = schemeHttps := by
  unfold stripScheme at h
  rcases h1 : stripCI (schemeHttps ++ sepSS) s with _ | r
  · rw [h1] at h
    rcases h2 : stripCI (schemeHttp ++ sepSS) s with _ | r
    · rw [h2] at h; simp at h
    · rw [h2] at h
      simp only [Option.some.injEq, Prod.mk.injEq] at h
      exact Or.inl h.1.symm
  · rw [h1] at h
    simp only [Option.some.injEq, Prod.mk.injEq] at h
    exact Or.inr h.1.symm

theorem startsHttpRegex_scheme (sch r : List Nat) (h : sch = schemeHttp ∨ sch = schemeHttps) :
    startsHttpRegex (sch ++ sepSS ++ r) = true := by
  rcases h with h | h <;> subst h <;> unfold startsHttpRegex
  · rw [stripCI_self_append _ _ lowerStr_http_sep]
    rfl
  · rw [List.append_assoc, stripCI_http_on_https, ← List.append_assoc,
      stripCI_self_append _ _ lowerStr_https_sep]
    rfl

/-! ## Lemmas about `takeWhile`, `dropWhile`, splitting -/

theorem takeWhile_append_all {p : Nat → Bool} {l₁ : List Nat} (l₂ : List Nat)
    (h : ∀ c ∈ l₁, p c = true) :
    (l₁ ++ l₂).takeWhile p = l₁ ++ l₂.takeWhile p := by
  induction l₁ with
  | nil => rfl
  | cons c cs ih =>
    simp only [List.cons_append, List.takeWhile_cons, h c (by simp), if_true]
    rw [ih (fun d hd => h d (by simp [hd]))]

theorem dropWhile_append_all {p : Nat → Bool} {l₁ : List Nat} (l₂ : List Nat)
    (h : ∀ c ∈ l₁, p c = true) :
    (l₁ ++ l₂).dropWhile p = l₂.dropWhile p := by
  induction l₁ with
  | nil => rfl
  | cons c cs ih =>
    simp only [List.cons_append, List.dropWhile_cons, h c (by simp), if_true]
    exact ih (fun d hd => h d (by simp [hd]))

theorem takeWhile_all {p : Nat → Bool} {l : List Nat} (h : ∀ c ∈ l, p c = true) :
    l.takeWhile p = l := by
  have := @takeWhile_append_all p l [] h
  simpa using this

theorem dropWhile_all {p : Nat → Bool} {l : List Nat} (h : ∀ c ∈ l, p c = true) :
    l.dropWhile p = [] := by
  have := @dropWhile_append_all p l [] h
  simpa using this

theorem splitFirstColon_append (l r : List Nat) (h : ∀ c ∈ l, c ≠ 58) :
    splitFirstColon (l ++ r) = (l ++ (splitFirstColon r).1, (splitFirstColon r).2) := by
  induction l with
  | nil => rfl
  | cons c cs ih =>
    simp only [List.cons_append, splitFirstColon, if_neg (h c (by simp)), List.append_eq]
    rw [ih (fun d hd => h d (by simp [hd]))]

theorem splitFirstColon_none (l : List Nat) (h : ∀ c ∈ l, c ≠ 58) :
    splitFirstColon l = (l, none) := by
  have := splitFirstColon_append l [] h
  simpa [splitFirstColon] using this

/-! ## Lemmas about digits -/

theorem natDigits_ne_nil (n : Nat) : natDigits n ≠ [] := by
  rw [natDigits]; split <;> simp

theorem natDigits_digits (n : Nat) : ∀ c ∈ natDigits n, 48 ≤ c ∧ c ≤ 57 := by
  induction n using Nat.strong_induction_on with
  | _ n ih =>
    rw [natDigits]; split
    · rename_i h; intro c hc
      simp only [List.mem_singleton] at hc
      omega
    · rename_i h; intro c hc
      rw [List.mem_append] at hc
      rcases hc with hc | hc
      · exact ih (n / 10) (Nat.div_lt_self (by omega) (by omega)) c hc
      · simp only [List.mem_singleton] at hc
        have : n % 10 < 10 := Nat.mod_lt n (by omega)
        omega

theorem digitsVal_append_digit (l : List Nat) (d : Nat) :
    digitsVal (l ++ [d]) = digitsVal l * 10 + (d - 48) := by
  simp [digitsVal, List.foldl_append]

theorem digitsVal_natDigits (n : Nat) : digitsVal (natDigits n) = n := by
  induction n using Nat.strong_induction_on with
  | _ n ih =>
    rw [natDigits]; split
    · rename_i h
      simp only [digitsVal, List.foldl_cons, List.foldl_nil]
      omega
    · rename_i h
      rw [digitsVal_append_digit, ih (n / 10) (Nat.div_lt_self (by omega) (by omega))]
      omega

/-! ## Lemmas about `splitOnC` -/

theorem splitOnC_ne_nil (sep : Nat) (l : List Nat) : splitOnC sep l ≠ [] := by
  cases l with
  | nil => simp [splitOnC]
  | cons c rest =>
    simp only [splitOnC]
    split
    · simp
    · cases splitOnC sep rest <;> simp [consHeadN]

theorem consHeadN_append (c : Nat) (l₁ l₂ : List (List Nat)) (h : l₁ ≠ []) :
    consHeadN c (l₁ ++ l₂) = consHeadN c l₁ ++ l₂ := by
  cases l₁ with
  | nil => exact absurd rfl h
  | cons s ss => rfl

theorem splitOnC_append_sep (sep : Nat) (l : List Nat) :
    splitOnC sep (l ++ [sep]) = splitOnC sep l ++ [[]] := by
  induction l with
  | nil => simp [splitOnC]
  | cons c cs ih =>
    simp only [List.cons_append, splitOnC, List.append_eq]
    split
    · rw [ih]; rfl
    · rw [ih, consHeadN_append _ _ _ (splitOnC_ne_nil sep cs)]

theorem map_lowerStr_consHeadN (c : Nat) (L : List (List Nat)) :
    (consHeadN c L).map lowerStr = consHeadN (jsLower c) (L.map lowerStr) := by
  cases L <;> rfl

theorem splitOnC_lowerStr (p : List Nat) :
    splitOnC 47 (lowerStr p) = (splitOnC 47 p).map lowerStr := by
  induction p with
  | nil => rfl
  | cons c cs ih =>
    simp only [lowerStr, List.map_cons, splitOnC]
    by_cases h : c = 47
    · subst h
      rw [if_pos (by decide), if_pos rfl]
      simp only [List.map_cons]
      rw [← ih]; rfl
    · rw [if_neg (fun hc => h (jsLower_eq_slash.mp hc)), if_neg h,
        map_lowerStr_consHeadN, ← ih]
      rfl

/-! ## Character-class facts -/

theorem validHost_all {h : List Nat} (hv : validHost h = true) :
    ∀ c ∈ h, hostChar c = true := by
  simp only [validHost, Bool.and_eq_true, List.all_eq_true] at hv
  exact hv.1.2

theorem validHost_ne_nil {h : List Nat} (hv : validHost h = true) : h ≠ [] := by
  simp only [validHost, Bool.and_eq_true, decide_eq_true_eq] at hv
  exact hv.1.1

theorem validPath_head {p : List Nat} (hv : validPath p = true) : p.head? = some 47 := by
  simp only [validPath, Bool.and_eq_true, decide_eq_true_eq] at hv
  exact hv.1.1

theorem validPath_all {p : List Nat} (hv : validPath p = true) :
    ∀ c ∈ p, pathChar c = true := by
  simp only [validPath, Bool.and_eq_true, List.all_eq_true] at hv
  exact hv.1.2

theorem validPath_segs {p : List Nat} (hv : validPath p = true) :
    ∀ s ∈ splitOnC 47 p, badSeg s = false := by
  simp only [validPath, Bool.and_eq_true, List.all_eq_true, Bool.not_eq_true'] at hv
  exact hv.2

theorem validPath_ne_nil {p : List Nat} (hv : validPath p = true) : p ≠ [] := by
  intro h
  rw [h] at hv
  simp [validPath] at hv

theorem validPath_mk {p : List Nat} (h1 : p.head? = some 47)
    (h2 : ∀ c ∈ p, pathChar c = true) (h3 : ∀ s ∈ splitOnC 47 p, badSeg s = false) :
    validPath p = true := by
  simp only [validPath, Bool.and_eq_true, decide_eq_true_eq, List.all_eq_true,
    Bool.not_eq_true']
  exact ⟨⟨h1, h2⟩, h3⟩

theorem validQuery_all {q : List Nat} (hv : validQuery (some q) = true) :
    ∀ c ∈ q, queryChar c = true := by
  simp only [validQuery, List.all_eq_true] at hv
  exact hv

theorem hostChar_not_upper {c : Nat} (h : hostChar c = true) : jsLower c = c := by
  simp only [hostChar, decide_eq_true_eq] at h
  exact jsLower_of_not_upper (by omega)

theorem lowerStr_host {h : List Nat} (hv : validHost h = true) : lowerStr h = h :=
  lowerStr_eq_self (fun c hc => hostChar_not_upper (validHost_all hv c hc))

theorem hostChar_not_authTerm {c : Nat} (h : hostChar c = true) : authTerm c = false := by
  simp only [hostChar, decide_eq_true_eq] at h
  simp only [authTerm, decide_eq_false_iff_not]
  omega

theorem hostChar_ne_colon {c : Nat} (h : hostChar c = true) : c ≠ 58 := by
  simp only [hostChar, decide_eq_true_eq] at h
  omega

theorem hostChar_not_special {c : Nat} (h : hostChar c = true) :
    ¬(c = 64 ∨ c = 91 ∨ c = 93) := by
  simp only [hostChar, decide_eq_true_eq] at h
  omega

theorem hostChar_not_ws {c : Nat} (h : hostChar c = true) : wsChar c = false := by
  simp only [hostChar, decide_eq_true_eq] at h
  simp only [wsChar, decide_eq_false_iff_not]
  omega

theorem pathChar_not_pathTerm {c : Nat} (h : pathChar c = true) : pathTerm c = false := by
  simp only [pathChar, decide_eq_true_eq] at h
  simp only [pathTerm, decide_eq_false_iff_not]
  omega

theorem pathChar_not_ws {c : Nat} (h : pathChar c = true) : wsChar c = false := by
  simp only [pathChar, decide_eq_true_eq] at h
  simp only [wsChar, decide_eq_false_iff_not]
  omega

theorem pathChar_jsLower {c : Nat} (h : pathChar c = true) : pathChar (jsLower c) = true := by
  simp only [pathChar, decide_eq_true_eq] at h ⊢
  unfold jsLower
  split <;> omega

theorem queryChar_ne_hash {c : Nat} (h : queryChar c = true) : c ≠ 35 := by
  simp only [queryChar, decide_eq_true_eq] at h
  omega

theorem queryChar_not_ws {c : Nat} (h : queryChar c = true) : wsChar c = false := by
  simp only [queryChar, decide_eq_true_eq] at h
  simp only [wsChar, decide_eq_false_iff_not]
  omega

theorem queryChar_jsLower {c : Nat} (h : queryChar c = true) :
    queryChar (jsLower c) = true := by
  simp only [queryChar, decide_eq_true_eq] at h ⊢
  unfold jsLower
  split <;> omega

theorem badSeg_lowerStr (s : List Nat) : badSeg (lowerStr s) = badSeg s := by
  simp [badSeg, lowerStr_idem]

/-! ## Lowercasing a URL -/

/-- The effect of `toLowerCase` on a serialized URL of the modelled subset:
host and scheme are already lowercase, so only path and query change. -/
def lowerURL (u : JSURL) : JSURL :=
  { u with path := lowerStr u.path, query := u.query.map lowerStr }

theorem ValidU_lowerURL (u : JSURL) (hu : ValidU u) : ValidU (lowerURL u) := by
  obtain ⟨hs, hh, hp, hpa, hq⟩ := hu
  refine ⟨hs, hh, hp, ?_, ?_⟩
  · apply validPath_mk
    · show (lowerStr u.path).head? = some 47
      rw [lowerStr, List.head?_map, validPath_head hpa]
      decide
    · intro c hc
      obtain ⟨d, hd, rfl⟩ := List.mem_map.mp hc
      exact pathChar_jsLower (validPath_all hpa d hd)
    · intro s hs'
      show badSeg s = false
      rw [show (lowerURL u).path = lowerStr u.path from rfl, splitOnC_lowerStr] at hs'
      obtain ⟨t, ht, rfl⟩ := List.mem_map.mp hs'
      rw [badSeg_lowerStr]
      exact validPath_segs hpa t ht
  · show validQuery (u.query.map lowerStr) = true
    cases hq' : u.query with
    | none => rfl
    | some q =>
      rw [hq'] at hq
      simp only [Option.map_some', validQuery, List.all_eq_true]
      intro c hc
      obtain ⟨d, hd, rfl⟩ := List.mem_map.mp hc
      exact queryChar_jsLower (validQuery_all hq d hd)

theorem lowerURL_idem (u : JSURL) : lowerURL (lowerURL u) = lowerURL u := by
  unfold lowerURL
  cases hq : u.query <;>
    simp [lowerStr_idem, Option.map_some']

theorem lowerURL_port (u : JSURL) : (lowerURL u).port = u.port := rfl

theorem lowerURL_fragment (u : JSURL) : (lowerURL u).fragment = u.fragment := rfl

theorem serialize_lower (u : JSURL) (hu : ValidU u) (hf : u.fragment = none) :
    lowerStr (serializeL u) = serializeL (lowerURL u) := by
  obtain ⟨hs, hh, hp, hpa, hq⟩ := hu
  have e1 : lowerStr u.scheme = u.scheme := by
    rcases hs with h | h <;> rw [h] <;> decide
  have e2 : lowerStr sepSS = sepSS := by decide
  have e3 : lowerStr u.host = u.host := lowerStr_host hh
  have e4 : lowerStr (portPart u) = portPart u := by
    unfold portPart
    cases hport : u.port with
    | none => rfl
    | some p =>
      simp only [lowerStr, List.map_cons]
      rw [show jsLower 58 = 58 by decide]
      congr 1
      exact lowerStr_eq_self (fun c hc =>
        jsLower_of_not_upper (by have := natDigits_digits p c hc; omega))
  have e5 : lowerStr (queryPart u) = queryPart (lowerURL u) := by
    cases hqq : u.query with
    | none =>
      have h1 : queryPart u = [] := by simp [queryPart, hqq]
      have h2 : queryPart (lowerURL u) = [] := by simp [queryPart, lowerURL, hqq]
      rw [h1, h2]; rfl
    | some q =>
      have h1 : queryPart u = 63 :: q := by simp [queryPart, hqq]
      have h2 : queryPart (lowerURL u) = 63 :: lowerStr q := by
        simp [queryPart, lowerURL, hqq]
      rw [h1, h2]
      simp only [lowerStr, List.map_cons]
      rw [show jsLower 63 = 63 by decide]
  have e6 : fragPart u = [] := by unfold fragPart; rw [hf]
  show lowerStr (u.scheme ++ sepSS ++ ((u.host ++ portPart u) ++ (u.path ++ (queryPart u ++ fragPart u)))) = _
  simp only [lowerStr_append]
  rw [e1, e2, e3, e4, e5, e6]
  rw [show lowerStr ([] : List Nat) = [] from rfl]
  show _ = (lowerURL u).scheme ++ sepSS ++ (((lowerURL u).host ++ portPart (lowerURL u)) ++ ((lowerURL u).path ++ (queryPart (lowerURL u) ++ fragPart (lowerURL u))))
  rw [show fragPart (lowerURL u) = [] by unfold fragPart; rw [lowerURL_fragment, hf]]
  rfl

/-! ## Round-trip: parsing a serialized URL recovers it -/

theorem validPath_cons {p : List Nat} (hv : validPath p = true) : ∃ t, p = 47 :: t := by
  have h := validPath_head hv
  cases p with
  | nil => simp at h
  | cons c t =>
    simp only [List.head?_cons, Option.some.injEq] at h
    exact ⟨t, by rw [h]⟩

theorem digit_not_authTerm {c : Nat} (h : 48 ≤ c ∧ c ≤ 57) : authTerm c = false := by
  simp only [authTerm, decide_eq_false_iff_not]
  omega

theorem digit_not_special {c : Nat} (h : 48 ≤ c ∧ c ≤ 57) :
    decide (c = 64 ∨ c = 91 ∨ c = 93) = false := by
  simp only [decide_eq_false_iff_not]
  omega

theorem portPart_mem {u : JSURL} {c : Nat} (hc : c ∈ portPart u) :
    c = 58 ∨ (48 ≤ c ∧ c ≤ 57) := by
  unfold portPart at hc
  cases hport : u.port with
  | none => rw [hport] at hc; simp at hc
  | some p =>
    rw [hport] at hc
    rcases List.mem_cons.mp hc with rfl | hc
    · exact Or.inl rfl
    · exact Or.inr (natDigits_digits p c hc)

theorem auth_chars {u : JSURL} (hh : validHost u.host = true) :
    ∀ c ∈ u.host ++ portPart u, (!authTerm c) = true := by
  intro c hc
  rcases List.mem_append.mp hc with hc | hc
  · simp [hostChar_not_authTerm (validHost_all hh c hc)]
  · rcases portPart_mem hc with rfl | hd
    · decide
    · simp [digit_not_authTerm hd]

theorem auth_no_special {u : JSURL} (hh : validHost u.host = true) :
    (u.host ++ portPart u).any (fun c => decide (c = 64 ∨ c = 91 ∨ c = 93)) = false := by
  rw [List.any_eq_false]
  intro c hc
  simp only [Bool.not_eq_true]
  rcases List.mem_append.mp hc with hc | hc
  · exact decide_eq_false (hostChar_not_special (validHost_all hh c hc))
  · rcases portPart_mem hc with rfl | hd
    · decide
    · exact digit_not_special hd

theorem splitFirstColon_auth (u : JSURL) (hh : validHost u.host = true) :
    splitFirstColon (u.host ++ portPart u) =
      (u.host, match u.port with | none => none | some p => some (natDigits p)) := by
  have hnc : ∀ c ∈ u.host, c ≠ 58 := fun c hc => hostChar_ne_colon (validHost_all hh c hc)
  cases hport : u.port with
  | none =>
    have : portPart u = [] := by unfold portPart; rw [hport]
    rw [this, List.append_nil, splitFirstColon_none _ hnc]
  | some p =>
    have : portPart u = 58 :: natDigits p := by unfold portPart; rw [hport]
    rw [this, splitFirstColon_append _ _ hnc]
    simp [splitFirstColon]

theorem parsePort_roundtrip (u : JSURL) (hs : u.scheme = schemeHttp ∨ u.scheme = schemeHttps)
    (hp : ∀ p, u.port = some p → p < 65536 ∧ p ≠ defaultPort u.scheme) :
    parsePort u.scheme (match u.port with | none => none | some p => some (natDigits p)) =
      some u.port := by
  cases hport : u.port with
  | none => rfl
  | some p =>
    obtain ⟨hlt, hne⟩ := hp p hport
    have hall : (natDigits p).all isDigitC = true := by
      rw [List.all_eq_true]
      intro c hc
      simp only [isDigitC, decide_eq_true_eq]
      exact natDigits_digits p c hc
    show parsePort u.scheme (some (natDigits p)) = some (some p)
    have heq : parsePort u.scheme (some (natDigits p)) =
        if natDigits p = [] then some none
        else if (natDigits p).all isDigitC then
          (if digitsVal (natDigits p) < 65536 then
            some (if digitsVal (natDigits p) = defaultPort u.scheme then none
              else some (digitsVal (natDigits p)))
          else none)
        else none := rfl
    rw [heq, if_neg (natDigits_ne_nil p), if_pos hall, digitsVal_natDigits,
      if_pos hlt, if_neg hne]

theorem takeWhile_path_query (u : JSURL) (hpa : validPath u.path = true)
    (hq : validQuery u.query = true) :
    (u.path ++ queryPart u).takeWhile (fun c => !pathTerm c) = u.path ∧
      (u.path ++ queryPart u).dropWhile (fun c => !pathTerm c) = queryPart u := by
  have hall : ∀ c ∈ u.path, (!pathTerm c) = true := by
    intro c hc
    simp [pathChar_not_pathTerm (validPath_all hpa c hc)]
  constructor
  · rw [takeWhile_append_all _ hall]
    unfold queryPart
    cases hqq : u.query with
    | none => simp
    | some q => simp [List.takeWhile_cons, pathTerm]
  · rw [dropWhile_append_all _ hall]
    unfold queryPart
    cases hqq : u.query with
    | none => simp
    | some q => simp [List.dropWhile_cons, pathTerm]

theorem parseQF_queryPart (u : JSURL) (hq : validQuery u.query = true)
    (hf : u.fragment = none) : parseQF (queryPart u) = (u.query, u.fragment) := by
  unfold queryPart
  cases hqq : u.query with
  | none => rw [hf]; rfl
  | some q =>
    rw [hf]
    have hall : ∀ c ∈ q, (fun d => decide (d ≠ 35)) c = true := by
      intro c hc
      simp only [decide_eq_true_eq]
      exact queryChar_ne_hash (validQuery_all (hqq ▸ hq) c hc)
    have hq63 : parseQF (63 :: q) =
        (some (q.takeWhile (fun d => decide (d ≠ 35))),
          match q.dropWhile (fun d => decide (d ≠ 35)) with
          | [] => none
          | _ :: fr' => some fr') := rfl
    show parseQF (63 :: q) = (some q, none)
    rw [hq63, takeWhile_all hall, dropWhile_all hall]

theorem parseAfterScheme_correct (u : JSURL) (hu : ValidU u) (hf : u.fragment = none) :
    parseAfterScheme u.scheme ((u.host ++ portPart u) ++ (u.path ++ queryPart u)) =
      some u := by
  obtain ⟨hs, hh, hp, hpa, hq⟩ := hu
  obtain ⟨t, hpt⟩ := validPath_cons hpa
  have htake : ((u.host ++ portPart u) ++ (u.path ++ queryPart u)).takeWhile
      (fun c => !authTerm c) = u.host ++ portPart u := by
    rw [takeWhile_append_all _ (auth_chars hh), hpt, List.cons_append,
      List.takeWhile_cons]
    simp [authTerm]
  have hdrop : ((u.host ++ portPart u) ++ (u.path ++ queryPart u)).dropWhile
      (fun c => !authTerm c) = u.path ++ queryPart u := by
    rw [dropWhile_append_all _ (auth_chars hh), hpt, List.cons_append,
      List.dropWhile_cons]
    simp [authTerm]
  have htq := takeWhile_path_query u hpa hq
  unfold parseAfterScheme
  simp only [htake, hdrop, auth_no_special hh, Bool.false_eq_true, if_false,
    splitFirstColon_auth u hh, lowerStr_host hh, parsePort_roundtrip u hs hp,
    htq.1, htq.2, parseQF_queryPart u hq hf, if_neg (validPath_ne_nil hpa)]
  rw [if_pos (by rw [hh, hpa, hq]; rfl)]

theorem parseAfterScheme_bare (u : JSURL) (hu : ValidU u) (hf : u.fragment = none)
    (hpath : u.path = [47]) (hquery : u.query = none) :
    parseAfterScheme u.scheme (u.host ++ portPart u) = some u := by
  obtain ⟨hs, hh, hp, hpa, hq⟩ := hu
  have htake : (u.host ++ portPart u).takeWhile (fun c => !authTerm c) =
      u.host ++ portPart u := takeWhile_all (auth_chars hh)
  have hdrop : (u.host ++ portPart u).dropWhile (fun c => !authTerm c) = [] :=
    dropWhile_all (auth_chars hh)
  have hqf : parseQF ([] : List Nat) = (none, none) := rfl
  conv_rhs => rw [show u = ⟨u.scheme, u.host, u.port, u.path, u.query, u.fragment⟩ from rfl]
  rw [hpath, hquery, hf]
  unfold parseAfterScheme
  simp only [htake, hdrop, auth_no_special hh, Bool.false_eq_true, if_false,
    splitFirstColon_auth u hh, lowerStr_host hh, parsePort_roundtrip u hs hp,
    List.takeWhile_nil, List.dropWhile_nil, hqf]
  simp only [if_true]
  rw [if_pos (by rw [hh]; decide)]

theorem serializeL_shape (u : JSURL) (hf : u.fragment = none) :
    serializeL u = u.scheme ++ sepSS ++ ((u.host ++ portPart u) ++ (u.path ++ queryPart u)) := by
  unfold serializeL fragPart
  rw [hf]
  simp

theorem parse_serialize (u : JSURL) (hu : ValidU u) (hf : u.fragment = none) :
    parseL (serializeL u) = some u := by
  rw [serializeL_shape u hf]
  unfold parseL
  rw [stripScheme_append _ _ hu.1]
  exact parseAfterScheme_correct u hu hf

theorem parse_serialize_bare (u : JSURL) (hu : ValidU u) (hf : u.fragment = none)
    (hpath : u.path = [47]) (hquery : u.query = none) :
    parseL (u.scheme ++ sepSS ++ (u.host ++ portPart u)) = some u := by
  unfold parseL
  rw [stripScheme_append _ _ hu.1]
  exact parseAfterScheme_bare u hu hf hpath hquery

/-! ## A successful parse produces a valid URL -/

theorem parsePort_valid {sch : List Nat} {pr : Option (List Nat)} {port : Option Nat}
    (h : parsePort sch pr = some port) :
    ∀ p, port = some p → p < 65536 ∧ p ≠ defaultPort sch := by
  intro p hp
  subst hp
  cases pr with
  | none =>
    simp only [parsePort, Option.some.injEq] at h
    exact absurd h (by simp)
  | some l =>
    have heq : parsePort sch (some l) =
        if l = [] then some none
        else if l.all isDigitC then
          (if digitsVal l < 65536 then
            some (if digitsVal l = defaultPort sch then none else some (digitsVal l))
          else none)
        else none := rfl
    rw [heq] at h
    by_cases h0 : l = []
    · rw [if_pos h0] at h; simp at h
    · rw [if_neg h0] at h
      by_cases h1 : l.all isDigitC = true
      · rw [if_pos h1] at h
        by_cases h2 : digitsVal l < 65536
        · rw [if_pos h2] at h
          simp only [Option.some.injEq] at h
          by_cases h3 : digitsVal l = defaultPort sch
          · rw [if_pos h3] at h; simp at h
          · rw [if_neg h3] at h
            simp only [Option.some.injEq] at h
            subst h
            exact ⟨h2, h3⟩
        · rw [if_neg h2] at h; simp at h
      · rw [if_neg h1] at h; simp at h

theorem parseAfterScheme_valid {sch rest : List Nat} {u : JSURL}
    (hsch : sch = schemeHttp ∨ sch = schemeHttps)
    (h : parseAfterScheme sch rest = some u) :
    ValidU u ∧ lowerStr u.host = u.host := by
  unfold parseAfterScheme at h
  dsimp only at h
  split at h
  · exact absurd h (by simp)
  · split at h
    · exact absurd h (by simp)
    · rename_i port hport
      split at h
      · split at h
        · rename_i hcond
          simp only [Option.some.injEq] at h
          subst h
          simp only [Bool.and_eq_true] at hcond
          exact ⟨⟨hsch, hcond.1.1, parsePort_valid hport, hcond.1.2, hcond.2⟩,
            lowerStr_idem _⟩
        · exact absurd h (by simp)
      · split at h
        · rename_i hcond
          simp only [Option.some.injEq] at h
          subst h
          simp only [Bool.and_eq_true] at hcond
          exact ⟨⟨hsch, hcond.1.1, parsePort_valid hport, hcond.1.2, hcond.2⟩,
            lowerStr_idem _⟩
        · exact absurd h (by simp)

theorem parseL_props {s : List Nat} {u : JSURL} (h : parseL s = some u) :
    ValidU u ∧ lowerStr u.host = u.host := by
  unfold parseL at h
  split at h
  · exact absurd h (by simp)
  · rename_i sch rest heq
    exact parseAfterScheme_valid (Or.symm (stripScheme_schemes heq)).symm h

/-! ## Shape of a normalized URL -/

theorem ValidU_clearFrag {u : JSURL} (h : ValidU u) :
    ValidU { u with fragment := none } := h

theorem lowerURL_eq_self {u : JSURL} (hp : lowerStr u.path = u.path)
    (hq : u.query.map lowerStr = u.query) : lowerURL u = u := by
  unfold lowerURL
  rw [hp, hq]

theorem lowerURL_fields {u : JSURL} (h : lowerURL u = u) :
    lowerStr u.path = u.path ∧ u.query.map lowerStr = u.query :=
  ⟨congrArg JSURL.path h, congrArg JSURL.query h⟩

theorem serializeL_query_none (u : JSURL) (hf : u.fragment = none) (hq : u.query = none) :
    serializeL u = (u.scheme ++ sepSS ++ (u.host ++ portPart u)) ++ u.path := by
  unfold serializeL queryPart fragPart
  rw [hf, hq]
  simp [List.append_assoc]

theorem serializeL_query_some (u : JSURL) (hf : u.fragment = none) {q : List Nat}
    (hq : u.query = some q) :
    serializeL u = (u.scheme ++ sepSS ++ ((u.host ++ portPart u) ++ u.path)) ++ (63 :: q) := by
  unfold serializeL queryPart fragPart
  rw [hf, hq]
  simp [List.append_assoc]

theorem serialize_no_ws (u : JSURL) (hu : ValidU u) (hf : u.fragment = none) :
    ∀ c ∈ serializeL u, wsChar c = false := by
  obtain ⟨hs, hh, hp, hpa, hq⟩ := hu
  intro c hc
  unfold serializeL at hc
  simp only [List.mem_append] at hc
  rcases hc with ((hc | hc) | ((hc | hc) | (hc | (hc | hc))))
  · rcases hs with h | h <;> rw [h] at hc <;>
      (first
        | (simp only [schemeHttp, List.mem_cons, List.not_mem_nil, or_false] at hc
           simp only [wsChar, decide_eq_false_iff_not]; omega)
        | (simp only [schemeHttps, List.mem_cons, List.not_mem_nil, or_false] at hc
           simp only [wsChar, decide_eq_false_iff_not]; omega))
  · simp only [sepSS, List.mem_cons, List.not_mem_nil, or_false] at hc
    simp only [wsChar, decide_eq_false_iff_not]; omega
  · exact hostChar_not_ws (validHost_all hh c hc)
  · rcases portPart_mem hc with rfl | hd
    · decide
    · simp only [wsChar, decide_eq_false_iff_not]; omega
  · exact pathChar_not_ws (validPath_all hpa c hc)
  · unfold queryPart at hc
    rcases hqq : u.query with _ | q
    · rw [hqq] at hc; simp at hc
    · rw [hqq] at hc
      rcases List.mem_cons.mp hc with rfl | hc
      · decide
      · exact queryChar_not_ws (validQuery_all (hqq ▸ hq) c hc)
  · unfold fragPart at hc
    rw [hf] at hc
    simp at hc

theorem serialize_ne_nil (u : JSURL) (hu : ValidU u) : serializeL u ≠ [] := by
  rcases hu.1 with h | h <;> (unfold serializeL; rw [h]; simp [schemeHttp, schemeHttps])

theorem bare_ne_nil (u : JSURL) (hu : ValidU u) :
    u.scheme ++ sepSS ++ (u.host ++ portPart u) ≠ [] := by
  rcases hu.1 with h | h <;> (rw [h]; simp [schemeHttp, schemeHttps])

theorem startsHttp_serialize (u : JSURL) (hu : ValidU u) :
    startsHttpRegex (serializeL u) = true :=
  startsHttpRegex_scheme u.scheme _ hu.1

theorem dropWhile_eq_self_all {p : Nat → Bool} {l : List Nat}
    (h : ∀ c ∈ l, p c = false) : l.dropWhile p = l := by
  cases l with
  | nil => rfl
  | cons c cs => simp [List.dropWhile_cons, h c (by simp)]

theorem trimL_eq_self {l : List Nat} (h : ∀ c ∈ l, wsChar c = false) : trimL l = l := by
  unfold trimL
  rw [dropWhile_eq_self_all h, dropWhile_eq_self_all (by simpa using h),
    List.reverse_reverse]

theorem clearFrag_eq_self {u : JSURL} (hf : u.fragment = none) :
    ({ u with fragment := none } : JSURL) = u := by
  rw [← hf]

/-- Running `normalizeUrl` on the serialization of a valid, fully lowercased,
fragment-free URL value just removes one trailing slash if present. -/
theorem normalizeL_of_serialized (u : JSURL) (hu : ValidU u) (hlow : lowerURL u = u)
    (hf : u.fragment = none) :
    normalizeL (serializeL u) = some (maybeDropSlash (serializeL u)) := by
  have hnws := serialize_no_ws u hu hf
  unfold normalizeL
  rw [if_neg (serialize_ne_nil u hu)]
  dsimp only
  rw [trimL_eq_self hnws, if_pos (startsHttp_serialize u hu), parse_serialize u hu hf]
  dsimp only
  rw [clearFrag_eq_self hf, lowerStr_maybeDropSlash, serialize_lower u hu hf, hlow]

/-- Running `normalizeUrl` on a serialized valid URL with root path and no
query, with the trailing slash already removed, returns it unchanged. -/
theorem normalizeL_of_bare (u : JSURL) (hu : ValidU u) (hlow : lowerURL u = u)
    (hf : u.fragment = none) (hpath : u.path = [47]) (hq : u.query = none) :
    normalizeL (u.scheme ++ sepSS ++ (u.host ++ portPart u)) =
      some (u.scheme ++ sepSS ++ (u.host ++ portPart u)) := by
  have hser : serializeL u = (u.scheme ++ sepSS ++ (u.host ++ portPart u)) ++ [47] := by
    rw [serializeL_query_none u hf hq, hpath]
  have hnws : ∀ c ∈ u.scheme ++ sepSS ++ (u.host ++ portPart u), wsChar c = false := by
    intro c hc
    exact serialize_no_ws u hu hf c (by rw [hser]; exact List.mem_append_left _ hc)
  have hlowB : lowerStr (u.scheme ++ sepSS ++ (u.host ++ portPart u)) =
      u.scheme ++ sepSS ++ (u.host ++ portPart u) := by
    have hall := eq_self_of_lowerStr
      (by rw [serialize_lower u hu hf, hlow] : lowerStr (serializeL u) = serializeL u)
    exact lowerStr_eq_self (fun c hc => hall c (by rw [hser]; exact List.mem_append_left _ hc))
  unfold normalizeL
  rw [if_neg (bare_ne_nil u hu)]
  dsimp only
  rw [trimL_eq_self hnws, if_pos (startsHttpRegex_scheme u.scheme _ hu.1),
    parse_serialize_bare u hu hf hpath hq]
  dsimp only
  rw [clearFrag_eq_self hf, hser]
  rw [show maybeDropSlash ((u.scheme ++ sepSS ++ (u.host ++ portPart u)) ++ [47]) =
      u.scheme ++ sepSS ++ (u.host ++ portPart u) by
    unfold maybeDropSlash
    rw [if_pos (List.getLast?_concat _), List.dropLast_concat]]
  rw [hlowB]

/-- Every successful output of `normalizeUrl` is (up to one removed trailing
slash) the serialization of a valid, lowercased, fragment-free URL value,
and re-parsing it succeeds. -/
theorem normalize_output {x y : List Nat} (h : normalizeL x = some y) :
    ∃ u : JSURL, ValidU u ∧ lowerURL u = u ∧ u.fragment = none ∧ parseL y = some u ∧
      (y = serializeL u ∨
        (u.path = [47] ∧ u.query = none ∧
          y = u.scheme ++ sepSS ++ (u.host ++ portPart u))) := by
  unfold normalizeL at h
  split at h
  · exact absurd h (by simp)
  · dsimp only at h
    split at h
    · exact absurd h (by simp)
    · rename_i u0 hpc
      simp only [Option.some.injEq] at h
      have hv' : ValidU ({u0 with fragment := none} : JSURL) :=
        ValidU_clearFrag (parseL_props hpc).1
      have hf' : ({u0 with fragment := none} : JSURL).fragment = none := rfl
      set w : JSURL := lowerURL {u0 with fragment := none} with hw
      have hv0 : ValidU w := ValidU_lowerURL _ hv'
      have hlow0 : lowerURL w = w := lowerURL_idem _
      have hf0 : w.fragment = none := hf'
      have hy : y = maybeDropSlash (serializeL w) := by
        rw [← h, lowerStr_maybeDropSlash, serialize_lower _ hv' hf', hw]
      by_cases hd : (serializeL w).getLast? = some 47
      · have hy2 : y = (serializeL w).dropLast := by
          rw [hy]; unfold maybeDropSlash; rw [if_pos hd]
        rcases hq0 : w.query with _ | q
        · -- query absent: the dropped slash came from the path
          have hsh := serializeL_query_none w hf0 hq0
          have hpne : w.path ≠ [] := validPath_ne_nil hv0.2.2.2.1
          have hlast : w.path.getLast? = some 47 := by
            rw [hsh, List.getLast?_append] at hd
            rcases hpl : w.path.getLast? with _ | c
            · exact absurd (List.getLast?_eq_none_iff.mp hpl) hpne
            · rw [hpl] at hd
              simpa using hd
          by_cases hone : w.path = [47]
          · refine ⟨w, hv0, hlow0, hf0, ?_, Or.inr ⟨hone, hq0, ?_⟩⟩
            · rw [hy2, hsh, hone, List.dropLast_concat]
              exact parse_serialize_bare w hv0 hf0 hone hq0
            · rw [hy2, hsh, hone, List.dropLast_concat]
          · obtain ⟨t, hpt⟩ := validPath_cons hv0.2.2.2.1
            have htne : t ≠ [] := by
              intro ht
              exact hone (by rw [hpt, ht])
            have hdl : w.path.dropLast = 47 :: t.dropLast := by
              rw [hpt, show (47 :: t) = [47] ++ t from rfl,
                List.dropLast_append_of_ne_nil _ htne]
              rfl
            have hpeq : w.path.dropLast ++ [47] = w.path :=
              List.dropLast_append_getLast? 47 (by rw [Option.mem_def]; exact hlast)
            have hv1path : validPath w.path.dropLast = true := by
              apply validPath_mk
              · rw [hdl]; rfl
              · intro c hc
                exact validPath_all hv0.2.2.2.1 c ((List.dropLast_sublist w.path).subset hc)
              · intro s hs2
                apply validPath_segs hv0.2.2.2.1
                rw [← hpeq, splitOnC_append_sep]
                exact List.mem_append_left _ hs2
            have hv1 : ValidU ({w with path := w.path.dropLast} : JSURL) :=
              ⟨hv0.1, hv0.2.1, hv0.2.2.1, hv1path, hv0.2.2.2.2⟩
            have hlow1 : lowerURL ({w with path := w.path.dropLast} : JSURL) =
                {w with path := w.path.dropLast} := by
              apply lowerURL_eq_self
              · show lowerStr w.path.dropLast = w.path.dropLast
                have hpl : lowerStr w.path = w.path := (lowerURL_fields hlow0).1
                calc lowerStr w.path.dropLast = (lowerStr w.path).dropLast :=
                      List.map_dropLast _ _
                  _ = w.path.dropLast := by rw [hpl]
              · show w.query.map lowerStr = w.query
                rw [hq0]; rfl
            have hf1 : ({w with path := w.path.dropLast} : JSURL).fragment = none := hf0
            have hser1 : serializeL ({w with path := w.path.dropLast} : JSURL) =
                (w.scheme ++ sepSS ++ (w.host ++ portPart w)) ++ w.path.dropLast := by
              rw [serializeL_query_none _ hf1 (show _ = none from hq0)]
              rfl
            have hyeq : y = serializeL ({w with path := w.path.dropLast} : JSURL) := by
              rw [hy2, hsh, List.dropLast_append_of_ne_nil _ hpne, hser1]
            refine ⟨_, hv1, hlow1, hf1, ?_, Or.inl hyeq⟩
            rw [hyeq]
            exact parse_serialize _ hv1 hf1
        · -- query present: the dropped slash came from the query
          have hsh := serializeL_query_some w hf0 hq0
          have hqne : q ≠ [] := by
            intro hqe
            rw [hsh, hqe, List.getLast?_append] at hd
            simp at hd
          have hlastq : q.getLast? = some 47 := by
            rw [hsh, List.getLast?_append,
              show (63 :: q) = [63] ++ q from rfl, List.getLast?_append] at hd
            rcases hql : q.getLast? with _ | c
            · exact absurd (List.getLast?_eq_none_iff.mp hql) hqne
            · rw [hql] at hd
              simpa using hd
          have hv1 : ValidU ({w with query := some q.dropLast} : JSURL) := by
            refine ⟨hv0.1, hv0.2.1, hv0.2.2.1, hv0.2.2.2.1, ?_⟩
            show validQuery (some q.dropLast) = true
            simp only [validQuery, List.all_eq_true]
            intro c hc
            exact validQuery_all (hq0 ▸ hv0.2.2.2.2) c ((List.dropLast_sublist q).subset hc)
          have hlow1 : lowerURL ({w with query := some q.dropLast} : JSURL) =
              {w with query := some q.dropLast} := by
            apply lowerURL_eq_self
            · exact (lowerURL_fields hlow0).1
            · show (some q.dropLast).map lowerStr = some q.dropLast
              have hlq : lowerStr q = q := by
                have h2 := (lowerURL_fields hlow0).2
                rw [hq0] at h2
                simpa using h2
              simp only [Option.map_some', Option.some.injEq]
              calc lowerStr q.dropLast = (lowerStr q).dropLast := List.map_dropLast _ _
                _ = q.dropLast := by rw [hlq]
          have hf1 : ({w with query := some q.dropLast} : JSURL).fragment = none := hf0
          have hser1 : serializeL ({w with query := some q.dropLast} : JSURL) =
              (w.scheme ++ sepSS ++ ((w.host ++ portPart w) ++ w.path)) ++
                (63 :: q.dropLast) := by
            rw [serializeL_query_some _ hf1 (show _ = some q.dropLast from rfl)]
            rfl
          have hyeq : y = serializeL ({w with query := some q.dropLast} : JSURL) := by
            rw [hy2, hsh, List.dropLast_append_of_ne_nil _ (by simp : (63 :: q) ≠ []), hser1]
            rw [show (63 :: q) = [63] ++ q from rfl, List.dropLast_append_of_ne_nil _ hqne]
            rfl
          refine ⟨_, hv1, hlow1, hf1, ?_, Or.inl hyeq⟩
          rw [hyeq]
          exact parse_serialize _ hv1 hf1
      · refine ⟨w, hv0, hlow0, hf0, ?_, Or.inl ?_⟩
        · rw [hy]
          unfold maybeDropSlash
          rw [if_neg hd]
          exact parse_serialize w hv0 hf0
        · rw [hy]
          unfold maybeDropSlash
          rw [if_neg hd]

/-- The output of a successful `normalizeUrl` always re-parses with the
model URL parser (so `new URL(normalized)` cannot throw downstream). -/
theorem normalizeL_parses {x y : List Nat} (h : normalizeL x = some y) :
    ∃ u, parseL y = some u := by
  obtain ⟨u, _, _, _, hp, _⟩ := normalize_output h
  exact ⟨u, hp⟩

/-! ## Claim C1: idempotence of `normalizeUrl` -/

/-- C1 (counterexample): the claim `normalize(normalize(x)) == normalize(x)`
fails at the well-formed input `"https://example.com//"`: normalizing it once
removes exactly one of the two trailing slashes, yielding
`"https://example.com/"`, and normalizing that again removes the remaining
slash, yielding `"https://example.com"`. -/
theorem normalizeUrl_not_idempotent :
    normalizeL (strCodes "https://example.com//") =
      some (strCodes "https://example.com/") ∧
    normalizeL (strCodes "https://example.com/") =
      some (strCodes "https://example.com") ∧
    (normalizeL (strCodes "https://example.com//")).bind normalizeL ≠
      normalizeL (strCodes "https://example.com//") := by
  decide

/-- C1 (amended): for every input string whose normalized form does not end
with `'/'`, applying `normalizeUrl` to its own output yields the same
string: `normalizeL x = some y` and `y` not ending in a slash imply
`normalizeL y = some y`. -/
theorem normalizeUrl_idempotent_no_trailing_slash (x y : List Nat)
    (h : normalizeL x = some y) (hy : y.getLast? ≠ some 47) :
    normalizeL y = some y := by
  obtain ⟨u, hv, hlow, hf, _, hcase⟩ := normalize_output h
  rcases hcase with hcase | ⟨hone, hqn, hbare⟩
  · rw [hcase, normalizeL_of_serialized u hv hlow hf]
    unfold maybeDropSlash
    rw [if_neg (by rw [← hcase]; exact hy)]
  · rw [hbare]
    exact normalizeL_of_bare u hv hlow hf hone hqn

/-- C1 (witness): a concrete run of the amended idempotence theorem on input
`"HTTPS://Example.COM/Path"` whose normalized form is
`"https://example.com/path"`. -/
theorem normalizeUrl_idempotent_witness :
    normalizeL (strCodes "HTTPS://Example.COM/Path") =
      some (strCodes "https://example.com/path") ∧
    (strCodes "https://example.com/path").getLast? ≠ some 47 ∧
    normalizeL (strCodes "https://example.com/path") =
      some (strCodes "https://example.com/path") :=
  ⟨by decide, by decide,
    normalizeUrl_idempotent_no_trailing_slash (strCodes "HTTPS://Example.COM/Path")
      (strCodes "https://example.com/path") (by decide) (by decide)⟩

/-! ## Feed entries and the URLHaus bulk-feed cache (osint.js lines 45–142) -/

structure FeedEntry where
  url : List Nat
  threat : List Nat
  lastOnline : Option (List Nat)
deriving DecidableEq

inductive MatchType where
  | url
  | host
deriving DecidableEq

structure MatchResult where
  url : List Nat
  threat : List Nat
  lastOnline : Option (List Nat)
  matchType : MatchType
deriving DecidableEq

/-- The `{ ...entry, matchType }` spread of osint.js lines 130 and 133. -/
def tagEntry (e : FeedEntry) (t : MatchType) : MatchResult :=
  ⟨e.url, e.threat, e.lastOnline, t⟩

/-- `hostname.replace(/^www\./, '')` (osint.js lines 93, 125, 175). -/
def stripWww (h : List Nat) : List Nat :=
  if h.take 4 = [119, 119, 119, 46] then h.drop 4 else h

/-- `line.trim().replace(/^"|"$/g, '')` applied after the trim: one leading
and one trailing double quote removed (osint.js line 79). -/
def stripQuotes (l : List Nat) : List Nat :=
  let l1 := match l with | 34 :: rest => rest | _ => l
  match l1.getLast? with | some 34 => l1.dropLast | _ => l1

/-- Split a feed line on the 3-character `","` separator (osint.js line 80). -/
def splitQCQ : List Nat → List (List Nat)
  | 34 :: 44 :: 34 :: rest => [] :: splitQCQ rest
  | c :: rest => consHeadN c (splitQCQ rest)
  | [] => [[]]

/-- The FeedEntry constructed on osint.js lines 86–90 and 96–100:
`threat || 'listed'` and `lastOnline || null` (an empty string and a missing
field are both falsy). -/
def mkEntry (nu threatF lastF : List Nat) : FeedEntry :=
  ⟨nu, if threatF = [] then strCodes "listed" else threatF,
    if lastF = [] then none else some lastF⟩

/-- Analysis of one feed line (osint.js lines 77–105): `none` when the line
is skipped (blank, comment, fewer than 3 fields, or URL fails to normalize);
otherwise the normalized URL, the FeedEntry, and the derived host key (absent
when host parsing fails — the `catch` of line 103). -/
def analyzeLine (line : List Nat) : Option (List Nat × FeedEntry × Option (List Nat)) :=
  if line = [] ∨ line.head? = some 35 then none
  else
    let cleaned := stripQuotes (trimL line)
    let parts := splitQCQ cleaned
    if parts.length < 3 then none
    else
      match normalizeL (parts.getD 2 []) with
      | none => none
      | some nu =>
        some (nu, mkEntry nu (parts.getD 5 []) (parts.getD 4 []),
          (parseL nu).map (fun u => lowerStr (stripWww u.host)))

/-- One iteration of the feed-parsing loop: set the URL-map entry and append
to the host list if it holds fewer than 5 entries (osint.js lines 86–105). -/
def processLine (acc : List (List Nat × FeedEntry) × List (List Nat × List FeedEntry))
    (line : List Nat) :
    List (List Nat × FeedEntry) × List (List Nat × List FeedEntry) :=
  match analyzeLine line with
  | none => acc
  | some (nu, e, hostOpt) =>
    (mapSet acc.1 nu e,
      match hostOpt with
      | none => acc.2
      | some hk =>
        let existing := (mapGet acc.2 hk).getD []
        mapSet acc.2 hk (if existing.length < 5 then existing ++ [e] else existing))

/-- Parse a whole feed body into the fresh `urlMap`/`hostMap` pair
(osint.js lines 74–106): split on newlines and process each line. -/
def parseFeedMaps (body : List Nat) :
    List (List Nat × FeedEntry) × List (List Nat × List FeedEntry) :=
  (splitOnC 10 body).foldl processLine ([], [])

/-- `URLHAUS_TTL_MS` (osint.js line 3): 15 minutes in milliseconds. -/
def URLHAUS_TTL_MS : Nat := 15 * 60 * 1000

/-- The mutable state of a `UrlhausCache` instance.  `loading` is the
in-flight refresh promise, identified by a ticket number; `nextTicket`
counts how many remote fetches have ever been started, so a burst issues
`nextTicket' - nextTicket` new fetches. -/
structure CacheState where
  lastFetched : Nat
  loading : Option Nat
  urlMap : List (List Nat × FeedEntry)
  hostMap : List (List Nat × List FeedEntry)
  nextTicket : Nat
deriving DecidableEq

/-- `isFresh` (osint.js lines 53–55). -/
def isFresh (st : CacheState) (now : Nat) : Bool :=
  decide (now - st.lastFetched < URLHAUS_TTL_MS)

/-- What a `load()` call hands back: an immediate snapshot, or the pending
refresh promise identified by its ticket. -/
inductive LoadOutcome where
  | snapshot (urlMap : List (List Nat × FeedEntry))
      (hostMap : List (List Nat × List FeedEntry)) (refreshedAt : Nat)
  | pending (ticket : Nat)
deriving DecidableEq

/-- The synchronous body of `UrlhausCache.load` (osint.js lines 57–67), run
atomically at time `now`: a fresh snapshot is returned immediately; an
in-flight refresh is joined; otherwise a new refresh starts, consuming a
fresh ticket. -/
def loadModel (st : CacheState) (now : Nat) : CacheState × LoadOutcome :=
  if isFresh st now then (st, .snapshot st.urlMap st.hostMap st.lastFetched)
  else
    match st.loading with
    | some t => (st, .pending t)
    | none =>
      ({ st with loading := some st.nextTicket, nextTicket := st.nextTicket + 1 },
        .pending st.nextTicket)

/-- A burst of `load()` calls at the given times, with no refresh completing
in between (no other step interleaves). -/
def loadBurst (st : CacheState) (nows : List Nat) : CacheState × List LoadOutcome :=
  match nows with
  | [] => (st, [])
  | now :: rest =>
    let sr := loadModel st now
    let next := loadBurst sr.1 rest
    (next.1, sr.2 :: next.2)

/-- An HTTP response: status code and body text. -/
structure HttpResp where
  status : Nat
  body : List Nat
deriving DecidableEq

/-- `Response.ok` of the platform fetch: status in the 2xx range. -/
def respOk (r : HttpResp) : Bool := decide (200 ≤ r.status ∧ r.status < 300)

/-- The snapshot object a successful refresh resolves to (osint.js line 113). -/
structure Snapshot where
  urlMap : List (List Nat × FeedEntry)
  hostMap : List (List Nat × List FeedEntry)
  refreshedAt : Nat
deriving DecidableEq

/-- The continuation of `UrlhausCache.fetchFeed` (osint.js lines 69–118) once
the network outcome is known, run atomically at time `now`.  `resp = .error e`
models a rejected fetch (network error, timeout abort, or a failed body
read); a response with a non-2xx status throws (line 72); otherwise the body
is parsed and the new snapshot installed (lines 108–113).  The returned
`Except` is the settlement that every caller holding the refresh ticket
receives. -/
def fetchFeedModel (st : CacheState) (resp : Except (List Nat) HttpResp) (now : Nat) :
    CacheState × Except (List Nat) Snapshot :=
  match resp with
  | .error e => ({ st with loading := none }, .error e)
  | .ok r =>
    if respOk r then
      let maps := parseFeedMaps r.body
      ({ st with
          urlMap := maps.1
          hostMap := maps.2
          lastFetched := now
          loading := none },
        .ok ⟨maps.1, maps.2, now⟩)
    else
      ({ st with loading := none },
        .error (strCodes "URLHaus responded with " ++ natDigits r.status))

structure CheckResult where
  source : List Nat
  refreshedAt : Nat
  listed : Bool
  matches' : List MatchResult
deriving DecidableEq

/-- `UrlhausCache.check` (osint.js lines 120–141) against a given snapshot
(the value `load()` resolved to).  Thrown errors are modelled as `.error`. -/
def checkWithSnapshot (snap : Snapshot) (inputUrl : List Nat) :
    Except (List Nat) CheckResult :=
  match normalizeL inputUrl with
  | none => .error (strCodes "Invalid URL")
  | some normalized =>
    match parseL normalized with
    | none => .error (strCodes "URL parse failure")
    | some parsed =>
      let hostKey := lowerStr (stripWww parsed.host)
      let directMatches :=
        match mapGet snap.urlMap normalized with
        | none => []
        | some e => [tagEntry e .url]
      let hostHits := (mapGet snap.hostMap hostKey).getD []
      let allMatches := directMatches ++ hostHits.map (fun e => tagEntry e .host)
      .ok ⟨strCodes "URLHaus (online feed)", snap.refreshedAt,
        decide (allMatches.length > 0), allMatches.take 5⟩

/-! ## The real-time reputation client and the aggregator (osint.js 144–221) -/

structure PhishResult where
  source : List Nat
  flagged : Bool
deriving DecidableEq

/-- `OsintService.checkPhishFeed` (osint.js lines 149–165), given the remote
response.  The first component is the hostname the remote GET was keyed by
(`none` when no request was issued because normalization failed; the host's
characters are all unreserved, so `encodeURIComponent` is the identity). -/
def checkPhishFeedModel (targetUrl : List Nat) (resp : HttpResp) :
    Option (List Nat) × Except (List Nat) PhishResult :=
  match normalizeL targetUrl with
  | none => (none, .error (strCodes "Invalid URL"))
  | some n =>
    match parseL n with
    | none => (none, .error (strCodes "URL parse failure"))
    | some parsed =>
      let target := lowerStr parsed.host
      if respOk resp then
        (some target, .ok ⟨strCodes "phish.sinking.yachts",
          decide (lowerStr (trimL resp.body) = strCodes "true")⟩)
      else
        (some target,
          .error (strCodes "phish.sinking.yachts responded with " ++ natDigits resp.status))

/-- A per-source outcome inside the aggregated result: the source's success
payload, or a `{ source, error }` descriptor. -/
inductive SourceOutcome (α : Type) where
  | ok (v : α)
  | err (source error : List Nat)
deriving DecidableEq

/-- `status === 'fulfilled' ? value : { source, error: reason?.message ||
'Lookup failed' }` (osint.js lines 182–191). -/
def settleOutcome {α : Type} (sourceName : List Nat) :
    Except (List Nat) α → SourceOutcome α
  | .ok v => .ok v
  | .error e => .err sourceName (if e = [] then strCodes "Lookup failed" else e)

inductive InspectionResult where
  | invalid (error : List Nat)
  | thrown
  | ok (host normalizedUrl : List Nat) (phishFeed : SourceOutcome PhishResult)
      (urlhaus : SourceOutcome CheckResult) (fetchedAt : Nat)
deriving DecidableEq

/-- `OsintService.inspectUrl` (osint.js lines 167–200), given the settled
outcomes of the two concurrent source checks (`Promise.allSettled` never
rejects, so both outcomes are always consumed).  The Bool records whether
the remote sources were contacted.  `.thrown` models the case where
`new URL(normalizedUrl)` on line 174 would throw — proven unreachable. -/
def inspectUrlModel (rawUrl : List Nat) (phish : Except (List Nat) PhishResult)
    (uh : Except (List Nat) CheckResult) (now : Nat) : InspectionResult × Bool :=
  match normalizeL rawUrl with
  | none =>
    (.invalid (strCodes "Enter a valid URL (example: https://example.com)."), false)
  | some n =>
    match parseL n with
    | none => (.thrown, false)
    | some parsed =>
      (.ok (lowerStr (stripWww parsed.host)) n
        (settleOutcome (strCodes "phish.sinking.yachts") phish)
        (settleOutcome (strCodes "URLHaus") uh) now, true)

/-! ## URL extraction from text (osint.js lines 22–32, 202–221) -/

/-- `[^\s"'<>]`: the token characters of the extraction regex (line 24). -/
def urlBodyChar (c : Nat) : Bool :=
  !(wsChar c || decide (c = 34 ∨ c = 39 ∨ c = 60 ∨ c = 62))

/-- Length of the regex match anchored at the head of `cs`: alternative 1 is
`https?:\/\/[^\s"'<>]+` (greedy, `https://` before `http://`), alternative 2
is `www\.[^\s"'<>]+`; both case-insensitive.  `none` when no alternative
matches here. -/
def tryMatchLen (cs : List Nat) : Option Nat :=
  if (stripCI (schemeHttps ++ sepSS) cs).isSome then
    (if (cs.drop 8).takeWhile urlBodyChar = [] then none
     else some (8 + ((cs.drop 8).takeWhile urlBodyChar).length))
  else if (stripCI (schemeHttp ++ sepSS) cs).isSome then
    (if (cs.drop 7).takeWhile urlBodyChar = [] then none
     else some (7 + ((cs.drop 7).takeWhile urlBodyChar).length))
  else if (stripCI [119, 119, 119, 46] cs).isSome then
    (if (cs.drop 4).takeWhile urlBodyChar = [] then none
     else some (4 + ((cs.drop 4).takeWhile urlBodyChar).length))
  else none

theorem tryMatchLen_pos {cs : List Nat} {n : Nat} (h : tryMatchLen cs = some n) :
    1 ≤ n := by
  unfold tryMatchLen at h
  split at h
  · split at h
    · simp at h
    · simp only [Option.some.injEq] at h; omega
  · split at h
    · split at h
      · simp at h
      · simp only [Option.some.injEq] at h; omega
    · split at h
      · split at h
        · simp at h
        · simp only [Option.some.injEq] at h; omega
      · simp at h

/-- `text.matchAll(regex)`: scan left to right; at each position try the
pattern, on a match consume it wholly and continue after its end. -/
def extractScan : List Nat → List (List Nat)
  | [] => []
  | c :: tail =>
    match h : tryMatchLen (c :: tail) with
    | some n => (c :: tail).take n :: extractScan ((c :: tail).drop n)
    | none => extractScan tail
termination_by cs => cs.length
decreasing_by
  · have h1 := tryMatchLen_pos h
    simp only [List.length_drop, List.length_cons]
    omega
  · simp

/-- JS `Set` insertion-order deduplication (`Array.from(new Set(...))`). -/
def dedupKeep (seen : List (List Nat)) : List (List Nat) → List (List Nat)
  | [] => []
  | x :: xs => if x ∈ seen then dedupKeep seen xs else x :: dedupKeep (x :: seen) xs

/-- `extractUrlsFromText` (osint.js lines 22–32): scan for URL-like tokens,
normalize each, drop normalization failures, collapse duplicates by
canonical form keeping first occurrences. -/
def extractUrlsModel (text : List Nat) : List (List Nat) :=
  if text = [] then [] else dedupKeep [] ((extractScan text).filterMap normalizeL)

/-- `MAX_TEXT_URLS` (osint.js line 5). -/
def MAX_TEXT_URLS : Nat := 6

structure TextInspection (α : Type) where
  ok : Bool
  urls : List α
  truncated : Bool
  found : Nat

/-- `OsintService.inspectText` (osint.js lines 202–221), parameterised by the
per-URL result function `f` (the guarded `inspectUrl` of lines 206–212; the
claims under verification do not constrain the per-URL payloads). -/
def inspectTextModel {α : Type} (f : List Nat → α) (text : List Nat) :
    TextInspection α :=
  let urls := extractUrlsModel text
  let limited := urls.take MAX_TEXT_URLS
  ⟨true, limited.map f, decide (urls.length > limited.length), urls.length⟩

/-! ## Map and take lemmas -/

theorem mapGet_mapSet_self {β : Type} (m : List (List Nat × β)) (k : List Nat) (v : β) :
    mapGet (mapSet m k v) k = some v := by
  induction m with
  | nil => simp [mapSet, mapGet]
  | cons kv rest ih =>
    obtain ⟨k', v'⟩ := kv
    by_cases hk : k' = k
    · simp [mapSet, mapGet, hk]
    · simp [mapSet, mapGet, hk, ih]

theorem mapGet_mapSet_other {β : Type} (m : List (List Nat × β)) {k k' : List Nat}
    (v : β) (h : k ≠ k') : mapGet (mapSet m k v) k' = mapGet m k' := by
  induction m with
  | nil => simp [mapSet, mapGet, h]
  | cons kv rest ih =>
    obtain ⟨k0, v0⟩ := kv
    by_cases hk : k0 = k
    · subst hk
      simp [mapSet, mapGet, h]
    · simp [mapSet, mapGet, hk, ih]

theorem take_append_one {α : Type} (l : List α) (e : α) (n : Nat) :
    (l ++ [e]).take n = if l.length < n then l.take n ++ [e] else l.take n := by
  induction l generalizing n with
  | nil =>
    cases n with
    | zero => simp
    | succ n => simp
  | cons x xs ih =>
    cases n with
    | zero => simp
    | succ n =>
      simp only [List.cons_append, List.take_succ_cons, List.length_cons, ih]
      by_cases hn : xs.length < n
      · rw [if_pos hn, if_pos (show xs.length + 1 < n + 1 by omega)]
      · rw [if_neg hn, if_neg (show ¬(xs.length + 1 < n + 1) by omega)]

/-! ## Claim C6: host-index lists are capped at 5, first-seen order -/

/-- The contribution of one feed line to the host index of `hk`. -/
def entriesOfLine (line hk : List Nat) : List FeedEntry :=
  match analyzeLine line with
  | some (_, e, some h) => if h = hk then [e] else []
  | _ => []

/-- All feed entries for host `hk` in a list of lines, in line order. -/
def hostEntriesOfLines (lines : List (List Nat)) (hk : List Nat) : List FeedEntry :=
  match lines with
  | [] => []
  | line :: rest => entriesOfLine line hk ++ hostEntriesOfLines rest hk

/-- All feed entries for host `hk` in a feed body, in first-seen order. -/
def hostEntriesOf (body hk : List Nat) : List FeedEntry :=
  hostEntriesOfLines (splitOnC 10 body) hk

theorem processLine_hostMap (acc : List (List Nat × FeedEntry) × List (List Nat × List FeedEntry))
    (line : List Nat) (P : List Nat → List FeedEntry)
    (hacc : ∀ hk, mapGet acc.2 hk = if P hk = [] then none else some ((P hk).take 5)) :
    ∀ hk, mapGet (processLine acc line).2 hk =
      if P hk ++ entriesOfLine line hk = [] then none
      else some ((P hk ++ entriesOfLine line hk).take 5) := by
  intro hk
  unfold processLine entriesOfLine
  rcases han : analyzeLine line with _ | ⟨nu, e, hostOpt⟩
  · simpa using hacc hk
  · rcases hostOpt with _ | h0
    · simpa using hacc hk
    · dsimp only
      by_cases hkk : h0 = hk
      · subst hkk
        rw [if_pos rfl]
        have hex : (mapGet acc.2 h0).getD [] = (P h0).take 5 := by
          rw [hacc h0]
          by_cases hp : P h0 = []
          · rw [if_pos hp, hp]; rfl
          · rw [if_neg hp]; rfl
        rw [mapGet_mapSet_self, hex]
        rw [if_neg (show ¬(P h0 ++ [e] = []) from by simp)]
        congr 1
        rw [take_append_one]
        by_cases hl5 : (P h0).length < 5
        · rw [if_pos (show ((P h0).take 5).length < 5 by
              rw [List.length_take]; omega), if_pos hl5]
        · rw [if_neg (show ¬(((P h0).take 5).length < 5) by
              rw [List.length_take]; omega), if_neg hl5]
      · rw [if_neg hkk, mapGet_mapSet_other _ _ hkk]
        simpa using hacc hk

theorem processLines_hostMap (lines : List (List Nat))
    (acc : List (List Nat × FeedEntry) × List (List Nat × List FeedEntry))
    (P : List Nat → List FeedEntry)
    (hacc : ∀ hk, mapGet acc.2 hk = if P hk = [] then none else some ((P hk).take 5)) :
    ∀ hk, mapGet (lines.foldl processLine acc).2 hk =
      if P hk ++ hostEntriesOfLines lines hk = [] then none
      else some ((P hk ++ hostEntriesOfLines lines hk).take 5) := by
  induction lines generalizing acc P with
  | nil =>
    intro hk
    simpa [hostEntriesOfLines] using hacc hk
  | cons line rest ih =>
    intro hk
    have step := processLine_hostMap acc line P hacc
    have := ih (processLine acc line) (fun hk => P hk ++ entriesOfLine line hk) step hk
    rw [List.foldl_cons] at *
    rw [this]
    simp only [hostEntriesOfLines, List.append_assoc]

/-- C6: in the host index built by a feed refresh, every host's entry list
is exactly the first-seen-ordered list of that host's feed entries truncated
to at most 5: later entries beyond the cap are discarded. -/
theorem hostMap_capped_first_seen (body hk : List Nat) (l : List FeedEntry)
    (h : mapGet (parseFeedMaps body).2 hk = some l) :
    l = (hostEntriesOf body hk).take 5 ∧ l.length ≤ 5 := by
  have H := processLines_hostMap (splitOnC 10 body) ([], []) (fun _ => [])
    (by intro hk; simp [mapGet]) hk
  unfold parseFeedMaps at h
  rw [H] at h
  simp only [List.nil_append] at h
  split at h
  · simp at h
  · simp only [Option.some.injEq] at h
    refine ⟨h.symm, ?_⟩
    rw [← h, List.length_take]
    omega

/-- C6 (witness): a feed with six lines sharing the host `h.example` yields
exactly the first five entries, in order. -/
theorem hostMap_capped_witness :
    mapGet (parseFeedMaps (strCodes "\"1\",\"d\",\"http://h.example/1\",\"s\",\"2024\",\"malware\"\n\"2\",\"d\",\"http://h.example/2\",\"s\",\"2024\",\"malware\"\n\"3\",\"d\",\"http://h.example/3\",\"s\",\"2024\",\"malware\"\n\"4\",\"d\",\"http://h.example/4\",\"s\",\"2024\",\"malware\"\n\"5\",\"d\",\"http://h.example/5\",\"s\",\"2024\",\"malware\"\n\"6\",\"d\",\"http://h.example/6\",\"s\",\"2024\",\"malware\"")).2
      (strCodes "h.example") =
      some [⟨strCodes "http://h.example/1", strCodes "malware", some (strCodes "2024")⟩,
        ⟨strCodes "http://h.example/2", strCodes "malware", some (strCodes "2024")⟩,
        ⟨strCodes "http://h.example/3", strCodes "malware", some (strCodes "2024")⟩,
        ⟨strCodes "http://h.example/4", strCodes "malware", some (strCodes "2024")⟩,
        ⟨strCodes "http://h.example/5", strCodes "malware", some (strCodes "2024")⟩] ∧
    ([⟨strCodes "http://h.example/1", strCodes "malware", some (strCodes "2024")⟩,
        ⟨strCodes "http://h.example/2", strCodes "malware", some (strCodes "2024")⟩,
        ⟨strCodes "http://h.example/3", strCodes "malware", some (strCodes "2024")⟩,
        ⟨strCodes "http://h.example/4", strCodes "malware", some (strCodes "2024")⟩,
        ⟨strCodes "http://h.example/5", strCodes "malware", some (strCodes "2024")⟩]
      : List FeedEntry) =
      (hostEntriesOf (strCodes "\"1\",\"d\",\"http://h.example/1\",\"s\",\"2024\",\"malware\"\n\"2\",\"d\",\"http://h.example/2\",\"s\",\"2024\",\"malware\"\n\"3\",\"d\",\"http://h.example/3\",\"s\",\"2024\",\"malware\"\n\"4\",\"d\",\"http://h.example/4\",\"s\",\"2024\",\"malware\"\n\"5\",\"d\",\"http://h.example/5\",\"s\",\"2024\",\"malware\"\n\"6\",\"d\",\"http://h.example/6\",\"s\",\"2024\",\"malware\"")
        (strCodes "h.example")).take 5 := by
  constructor
  · decide
  · exact (hostMap_capped_first_seen _ _ _ (by decide)).1

/-! ## Claim C10: feed-entry defaults for missing/empty fields -/

/-- C10: for every feed data line with at least 3 quote-split fields whose
URL normalizes, the stored FeedEntry defaults each field independently: its
`threat` is `"listed"` whenever the threat-type field (index 5) is missing
or empty, and its `lastOnline` is `null` whenever the last-online field
(index 4) is missing or empty — regardless of the other field; that entry is
what `processLine` records in the URL map, and appends to the host list when
the host is derivable and the list is under its cap. -/
theorem feedEntry_defaults (line : List Nat) (nu : List Nat) (e : FeedEntry)
    (hostOpt : Option (List Nat))
    (h : analyzeLine line = some (nu, e, hostOpt)) :
    ((splitQCQ (stripQuotes (trimL line))).getD 5 [] = [] →
      e.threat = strCodes "listed") ∧
    ((splitQCQ (stripQuotes (trimL line))).getD 4 [] = [] →
      e.lastOnline = none) ∧
    (∀ acc, mapGet (processLine acc line).1 nu = some e) ∧
    (∀ acc hk, hostOpt = some hk → ((mapGet acc.2 hk).getD []).length < 5 →
      mapGet (processLine acc line).2 hk =
        some ((mapGet acc.2 hk).getD [] ++ [e])) := by
  have he : e = mkEntry nu ((splitQCQ (stripQuotes (trimL line))).getD 5 [])
      ((splitQCQ (stripQuotes (trimL line))).getD 4 []) ∧
      (hostOpt = (parseL nu).map (fun u => lowerStr (stripWww u.host))) := by
    unfold analyzeLine at h
    split at h
    · simp at h
    · dsimp only at h
      split at h
      · simp at h
      · split at h
        · simp at h
        · rename_i nu' hnu
          simp only [Option.some.injEq, Prod.mk.injEq] at h
          obtain ⟨h1, h2, h3⟩ := h
          subst h1
          exact ⟨h2.symm, h3.symm⟩
  obtain ⟨he, _⟩ := he
  refine ⟨?_, ?_, ?_, ?_⟩
  · intro ht
    rw [he]
    unfold mkEntry
    rw [ht]
    rfl
  · intro hl
    rw [he]
    unfold mkEntry
    rw [hl]
    rfl
  · intro acc
    unfold processLine
    rw [h]
    exact mapGet_mapSet_self _ _ _
  · intro acc hk hkk hlen
    subst hkk
    unfold processLine
    rw [h]
    dsimp only
    rw [if_pos hlen]
    exact mapGet_mapSet_self _ _ _

/-- C10 (witness): the defaults act independently.  A 5-field line (threat
missing, last-online present) stores `threat = "listed"` with the
last-online value kept; a 6-field line with an empty last-online field but a
present threat type stores `lastOnline = null` with the threat kept; the
entry of the first line lands in the URL map. -/
theorem feedEntry_defaults_witness :
    analyzeLine (strCodes "\"1\",\"d\",\"http://evil.example/mal\",\"s\",\"2024\"") =
      some (strCodes "http://evil.example/mal",
        ⟨strCodes "http://evil.example/mal", strCodes "listed", some (strCodes "2024")⟩,
        some (strCodes "evil.example")) ∧
    (⟨strCodes "http://evil.example/mal", strCodes "listed",
        some (strCodes "2024")⟩ : FeedEntry).threat = strCodes "listed" ∧
    analyzeLine (strCodes "\"1\",\"d\",\"http://evil.example/x\",\"s\",\"\",\"malware\"") =
      some (strCodes "http://evil.example/x",
        ⟨strCodes "http://evil.example/x", strCodes "malware", none⟩,
        some (strCodes "evil.example")) ∧
    (⟨strCodes "http://evil.example/x", strCodes "malware",
        none⟩ : FeedEntry).lastOnline = none ∧
    mapGet (processLine ([], [])
        (strCodes "\"1\",\"d\",\"http://evil.example/mal\",\"s\",\"2024\"")).1
      (strCodes "http://evil.example/mal") =
      some ⟨strCodes "http://evil.example/mal", strCodes "listed",
        some (strCodes "2024")⟩ := by
  refine ⟨by decide, ?_, by decide, ?_, ?_⟩
  · exact (feedEntry_defaults
      (strCodes "\"1\",\"d\",\"http://evil.example/mal\",\"s\",\"2024\"")
      (strCodes "http://evil.example/mal")
      ⟨strCodes "http://evil.example/mal", strCodes "listed", some (strCodes "2024")⟩
      (some (strCodes "evil.example")) (by decide)).1 (by decide)
  · exact (feedEntry_defaults
      (strCodes "\"1\",\"d\",\"http://evil.example/x\",\"s\",\"\",\"malware\"")
      (strCodes "http://evil.example/x")
      ⟨strCodes "http://evil.example/x", strCodes "malware", none⟩
      (some (strCodes "evil.example")) (by decide)).2.1 (by decide)
  · exact (feedEntry_defaults
      (strCodes "\"1\",\"d\",\"http://evil.example/mal\",\"s\",\"2024\"")
      (strCodes "http://evil.example/mal")
      ⟨strCodes "http://evil.example/mal", strCodes "listed", some (strCodes "2024")⟩
      (some (strCodes "evil.example")) (by decide)).2.2.1 ([], [])

/-! ## Claim C2: `check` composes direct and host matches, capped at 5 -/

/-- The direct `urlMap` match of a normalized URL, tagged `url` (line 129). -/
def directOf (snap : Snapshot) (normalized : List Nat) : List MatchResult :=
  match mapGet snap.urlMap normalized with
  | none => []
  | some e => [tagEntry e .url]

/-- The `hostMap` matches of a parsed URL's www-stripped lowercase host,
tagged `host` (lines 132–133). -/
def hostHitsOf (snap : Snapshot) (u : JSURL) : List MatchResult :=
  ((mapGet snap.hostMap (lowerStr (stripWww u.host))).getD []).map
    (fun e => tagEntry e .host)

/-- C2: for every URL whose normalization succeeds, `check` against a
snapshot succeeds, and its result carries the exact urlMap match (tagged
`url`) first, then the host-index entries for the www-stripped lowercase
host (tagged `host`), truncated to at most 5; `listed` is true iff the
untruncated combined list is nonempty. -/
theorem check_matches_shape (snap : Snapshot) (inputUrl n : List Nat)
    (h : normalizeL inputUrl = some n) :
    ∃ u r, parseL n = some u ∧
      checkWithSnapshot snap inputUrl = .ok r ∧
      r.matches' = (directOf snap n ++ hostHitsOf snap u).take 5 ∧
      r.matches'.length ≤ 5 ∧
      (r.listed = true ↔ directOf snap n ++ hostHitsOf snap u ≠ []) ∧
      r.refreshedAt = snap.refreshedAt ∧
      r.source = strCodes "URLHaus (online feed)" := by
  obtain ⟨u, hu⟩ := normalizeL_parses h
  have heq : checkWithSnapshot snap inputUrl =
      .ok ⟨strCodes "URLHaus (online feed)", snap.refreshedAt,
        decide ((directOf snap n ++ hostHitsOf snap u).length > 0),
        (directOf snap n ++ hostHitsOf snap u).take 5⟩ := by
    unfold checkWithSnapshot
    rw [h]
    dsimp only
    rw [hu]
    dsimp only
    rfl
  refine ⟨u, _, hu, heq, rfl, ?_, ?_, rfl, rfl⟩
  · show ((directOf snap n ++ hostHitsOf snap u).take 5).length ≤ 5
    rw [List.length_take]
    omega
  · show decide ((directOf snap n ++ hostHitsOf snap u).length > 0) = true ↔ _
    rw [decide_eq_true_eq]
    constructor
    · intro hlen hnil
      rw [hnil] at hlen
      simp at hlen
    · intro hne
      rcases hee : directOf snap n ++ hostHitsOf snap u with _ | ⟨a, rest⟩
      · exact absurd hee hne
      · simp

/-- C2 (witness): a snapshot whose urlMap holds the normalized URL and whose
host index holds five entries for the host produces the direct match first,
five matches total, and `listed = true`. -/
theorem check_matches_witness :
    checkWithSnapshot
      ⟨[(strCodes "https://bad.example/x",
          ⟨strCodes "https://bad.example/x", strCodes "malware", none⟩)],
       [(strCodes "bad.example",
          [⟨strCodes "https://bad.example/y", strCodes "phish", none⟩,
           ⟨strCodes "https://bad.example/y", strCodes "phish", none⟩,
           ⟨strCodes "https://bad.example/y", strCodes "phish", none⟩,
           ⟨strCodes "https://bad.example/y", strCodes "phish", none⟩,
           ⟨strCodes "https://bad.example/y", strCodes "phish", none⟩])], 42⟩
      (strCodes "https://BAD.example/x") =
      .ok ⟨strCodes "URLHaus (online feed)", 42, true,
        [tagEntry ⟨strCodes "https://bad.example/x", strCodes "malware", none⟩ .url,
         tagEntry ⟨strCodes "https://bad.example/y", strCodes "phish", none⟩ .host,
         tagEntry ⟨strCodes "https://bad.example/y", strCodes "phish", none⟩ .host,
         tagEntry ⟨strCodes "https://bad.example/y", strCodes "phish", none⟩ .host,
         tagEntry ⟨strCodes "https://bad.example/y", strCodes "phish", none⟩ .host]⟩ ∧
    normalizeL (strCodes "https://BAD.example/x") = some (strCodes "https://bad.example/x") ∧
    (∃ u r, parseL (strCodes "https://bad.example/x") = some u ∧
      checkWithSnapshot
        ⟨[(strCodes "https://bad.example/x",
            ⟨strCodes "https://bad.example/x", strCodes "malware", none⟩)],
         [(strCodes "bad.example",
            [⟨strCodes "https://bad.example/y", strCodes "phish", none⟩,
             ⟨strCodes "https://bad.example/y", strCodes "phish", none⟩,
             ⟨strCodes "https://bad.example/y", strCodes "phish", none⟩,
             ⟨strCodes "https://bad.example/y", strCodes "phish", none⟩,
             ⟨strCodes "https://bad.example/y", strCodes "phish", none⟩])], 42⟩
        (strCodes "https://BAD.example/x") = .ok r ∧
      r.matches' =
        (directOf
            ⟨[(strCodes "https://bad.example/x",
                ⟨strCodes "https://bad.example/x", strCodes "malware", none⟩)],
             [(strCodes "bad.example",
                [⟨strCodes "https://bad.example/y", strCodes "phish", none⟩,
                 ⟨strCodes "https://bad.example/y", strCodes "phish", none⟩,
                 ⟨strCodes "https://bad.example/y", strCodes "phish", none⟩,
                 ⟨strCodes "https://bad.example/y", strCodes "phish", none⟩,
                 ⟨strCodes "https://bad.example/y", strCodes "phish", none⟩])], 42⟩
            (strCodes "https://bad.example/x") ++
          hostHitsOf
            ⟨[(strCodes "https://bad.example/x",
                ⟨strCodes "https://bad.example/x", strCodes "malware", none⟩)],
             [(strCodes "bad.example",
                [⟨strCodes "https://bad.example/y", strCodes "phish", none⟩,
                 ⟨strCodes "https://bad.example/y", strCodes "phish", none⟩,
                 ⟨strCodes "https://bad.example/y", strCodes "phish", none⟩,
                 ⟨strCodes "https://bad.example/y", strCodes "phish", none⟩,
                 ⟨strCodes "https://bad.example/y", strCodes "phish", none⟩])], 42⟩
            u).take 5 ∧
      r.matches'.length ≤ 5 ∧
      (r.listed = true ↔
        directOf
            ⟨[(strCodes "https://bad.example/x",
                ⟨strCodes "https://bad.example/x", strCodes "malware", none⟩)],
             [(strCodes "bad.example",
                [⟨strCodes "https://bad.example/y", strCodes "phish", none⟩,
                 ⟨strCodes "https://bad.example/y", strCodes "phish", none⟩,
                 ⟨strCodes "https://bad.example/y", strCodes "phish", none⟩,
                 ⟨strCodes "https://bad.example/y", strCodes "phish", none⟩,
                 ⟨strCodes "https://bad.example/y", strCodes "phish", none⟩])], 42⟩
            (strCodes "https://bad.example/x") ++
          hostHitsOf
            ⟨[(strCodes "https://bad.example/x",
                ⟨strCodes "https://bad.example/x", strCodes "malware", none⟩)],
             [(strCodes "bad.example",
                [⟨strCodes "https://bad.example/y", strCodes "phish", none⟩,
                 ⟨strCodes "https://bad.example/y", strCodes "phish", none⟩,
                 ⟨strCodes "https://bad.example/y", strCodes "phish", none⟩,
                 ⟨strCodes "https://bad.example/y", strCodes "phish", none⟩,
                 ⟨strCodes "https://bad.example/y", strCodes "phish", none⟩])], 42⟩
            u ≠ []) ∧
      r.refreshedAt = 42 ∧ r.source = strCodes "URLHaus (online feed)") := by
  refine ⟨by decide, by decide, ?_⟩
  exact check_matches_shape _ (strCodes "https://BAD.example/x")
    (strCodes "https://bad.example/x") (by decide)

/-! ## Claim C3: a refresh is atomic with respect to the snapshot -/

/-- C3: a bulk-feed refresh is atomic: after the step the in-flight marker is
always cleared; on a fetch failure or a non-2xx status the result delivered
to every caller awaiting the refresh is the error and the state is exactly
the old state with the marker cleared (urlMap, hostMap and lastFetched
untouched); only a fully successful refresh replaces urlMap, hostMap and
lastFetched, and it replaces all three together with the parsed maps and
the completion time. -/
theorem fetchFeed_atomic (st : CacheState) (resp : Except (List Nat) HttpResp)
    (now : Nat) :
    (fetchFeedModel st resp now).1.loading = none ∧
    (∀ e, resp = .error e →
      fetchFeedModel st resp now = ({ st with loading := none }, .error e)) ∧
    (∀ r, resp = .ok r → respOk r = false →
      fetchFeedModel st resp now =
        ({ st with loading := none },
          .error (strCodes "URLHaus responded with " ++ natDigits r.status))) ∧
    (∀ r, resp = .ok r → respOk r = true →
      fetchFeedModel st resp now =
        ({ st with
            urlMap := (parseFeedMaps r.body).1
            hostMap := (parseFeedMaps r.body).2
            lastFetched := now
            loading := none },
          .ok ⟨(parseFeedMaps r.body).1, (parseFeedMaps r.body).2, now⟩)) := by
  refine ⟨?_, ?_, ?_, ?_⟩
  · rcases resp with e | r
    · rfl
    · unfold fetchFeedModel
      dsimp only
      by_cases hok : respOk r = true
      · rw [if_pos hok]
      · rw [if_neg hok]
  · intro e he
    subst he
    rfl
  · intro r hr hok
    subst hr
    unfold fetchFeedModel
    dsimp only
    rw [if_neg (by rw [hok]; exact Bool.false_ne_true)]
  · intro r hr hok
    subst hr
    unfold fetchFeedModel
    dsimp only
    rw [if_pos hok]

/-- C3 (witness): concrete runs of the atomicity theorem: a network failure
and a 404 leave a populated state untouched except for the cleared marker; a
200 replaces the maps and timestamp together. -/
theorem fetchFeed_atomic_witness :
    fetchFeedModel ⟨7, some 3, [(strCodes "https://k.example", ⟨strCodes "https://k.example", strCodes "listed", none⟩)], [], 4⟩
        (.error (strCodes "fetch failed")) 99 =
      ({ lastFetched := 7, loading := none,
         urlMap := [(strCodes "https://k.example", ⟨strCodes "https://k.example", strCodes "listed", none⟩)],
         hostMap := [], nextTicket := 4 }, .error (strCodes "fetch failed")) ∧
    fetchFeedModel ⟨7, some 3, [(strCodes "https://k.example", ⟨strCodes "https://k.example", strCodes "listed", none⟩)], [], 4⟩
        (.ok ⟨404, strCodes "x"⟩) 99 =
      ({ lastFetched := 7, loading := none,
         urlMap := [(strCodes "https://k.example", ⟨strCodes "https://k.example", strCodes "listed", none⟩)],
         hostMap := [], nextTicket := 4 },
        .error (strCodes "URLHaus responded with " ++ natDigits 404)) ∧
    fetchFeedModel ⟨7, some 3, [(strCodes "https://k.example", ⟨strCodes "https://k.example", strCodes "listed", none⟩)], [], 4⟩
        (.ok ⟨200, strCodes "\"1\",\"d\",\"http://h.example/1\",\"s\",\"2024\",\"malware\""⟩) 99 =
      ({ lastFetched := 99, loading := none,
         urlMap := (parseFeedMaps (strCodes "\"1\",\"d\",\"http://h.example/1\",\"s\",\"2024\",\"malware\"")).1,
         hostMap := (parseFeedMaps (strCodes "\"1\",\"d\",\"http://h.example/1\",\"s\",\"2024\",\"malware\"")).2,
         nextTicket := 4 },
        .ok ⟨(parseFeedMaps (strCodes "\"1\",\"d\",\"http://h.example/1\",\"s\",\"2024\",\"malware\"")).1,
          (parseFeedMaps (strCodes "\"1\",\"d\",\"http://h.example/1\",\"s\",\"2024\",\"malware\"")).2, 99⟩) := by
  refine ⟨?_, ?_, ?_⟩
  · exact (fetchFeed_atomic _ _ 99).2.1 _ rfl
  · exact (fetchFeed_atomic _ _ 99).2.2.1 _ rfl (by decide)
  · exact (fetchFeed_atomic _ _ 99).2.2.2 _ rfl (by decide)

/-! ## Claim C4: single-flight coalescing of concurrent loads -/

/-- C4: while the snapshot is stale and a refresh with ticket `t` is already
in flight, a burst of `load()` calls leaves the cache state completely
unchanged (in particular `nextTicket`, the count of fetches ever started, so
no new remote fetch is issued for the burst) and every caller receives the
same pending refresh `t`.  At most one refresh is in flight at any time by
construction (`loading` holds at most one ticket). -/
theorem load_single_flight (st : CacheState) (t : Nat) (nows : List Nat)
    (h1 : st.loading = some t)
    (h2 : ∀ now ∈ nows, isFresh st now = false) :
    loadBurst st nows = (st, nows.map (fun _ => LoadOutcome.pending t)) := by
  induction nows with
  | nil => rfl
  | cons now rest ih =>
    have hstep : loadModel st now = (st, .pending t) := by
      unfold loadModel
      rw [if_neg (by rw [h2 now (by simp)]; exact Bool.false_ne_true), h1]
    unfold loadBurst
    rw [hstep]
    dsimp only
    rw [ih (fun x hx => h2 x (by simp [hx]))]
    rfl

/-- C4 (witness): three stale concurrent loads while ticket 7 is in flight
all receive `pending 7` and leave the state (and its fetch counter)
unchanged. -/
theorem load_single_flight_witness :
    (∀ now ∈ [1000000, 1000001, 1000002],
      isFresh ⟨0, some 7, [], [], 8⟩ now = false) ∧
    loadBurst ⟨0, some 7, [], [], 8⟩ [1000000, 1000001, 1000002] =
      (⟨0, some 7, [], [], 8⟩,
        [LoadOutcome.pending 7, LoadOutcome.pending 7, LoadOutcome.pending 7]) :=
  ⟨by decide,
    load_single_flight ⟨0, some 7, [], [], 8⟩ 7 [1000000, 1000001, 1000002] rfl (by decide)⟩

/-! ## Claims C5 and C9: the aggregator isolates source failures -/

/-- C5: for every input URL that normalizes successfully, `inspectUrl`
produces an `ok` result for all combinations of source outcomes — including
when either or both remote sources fail — with each failing source appearing
only as an `err` (source, message) descriptor in its slot, and each
succeeding source as its payload. -/
theorem inspectUrl_isolates_failures (rawUrl n : List Nat)
    (h : normalizeL rawUrl = some n) :
    ∃ u, parseL n = some u ∧
      ∀ (phish : Except (List Nat) PhishResult) (uh : Except (List Nat) CheckResult)
        (now : Nat),
        inspectUrlModel rawUrl phish uh now =
          (.ok (lowerStr (stripWww u.host)) n
            (settleOutcome (strCodes "phish.sinking.yachts") phish)
            (settleOutcome (strCodes "URLHaus") uh) now, true) ∧
        (∀ e, phish = .error e →
          settleOutcome (strCodes "phish.sinking.yachts") phish =
            .err (strCodes "phish.sinking.yachts")
              (if e = [] then strCodes "Lookup failed" else e)) ∧
        (∀ e, uh = .error e →
          settleOutcome (strCodes "URLHaus") uh =
            .err (strCodes "URLHaus") (if e = [] then strCodes "Lookup failed" else e)) := by
  obtain ⟨u, hu⟩ := normalizeL_parses h
  refine ⟨u, hu, ?_⟩
  intro phish uh now
  refine ⟨?_, ?_, ?_⟩
  · unfold inspectUrlModel
    rw [h]
    dsimp only
    rw [hu]
  · intro e he
    subst he
    rfl
  · intro e he
    subst he
    rfl

/-- C5 (witness): with both sources failing, inspection of
`"https://ok.example/a"` still returns an `ok` result carrying two error
descriptors. -/
theorem inspectUrl_isolates_witness :
    normalizeL (strCodes "https://ok.example/a") = some (strCodes "https://ok.example/a") ∧
    (∃ u, parseL (strCodes "https://ok.example/a") = some u ∧
      ∀ (phish : Except (List Nat) PhishResult) (uh : Except (List Nat) CheckResult)
        (now : Nat),
        inspectUrlModel (strCodes "https://ok.example/a") phish uh now =
          (.ok (lowerStr (stripWww u.host)) (strCodes "https://ok.example/a")
            (settleOutcome (strCodes "phish.sinking.yachts") phish)
            (settleOutcome (strCodes "URLHaus") uh) now, true) ∧
        (∀ e, phish = .error e →
          settleOutcome (strCodes "phish.sinking.yachts") phish =
            .err (strCodes "phish.sinking.yachts")
              (if e = [] then strCodes "Lookup failed" else e)) ∧
        (∀ e, uh = .error e →
          settleOutcome (strCodes "URLHaus") uh =
            .err (strCodes "URLHaus") (if e = [] then strCodes "Lookup failed" else e))) :=
  ⟨by decide,
    inspectUrl_isolates_failures (strCodes "https://ok.example/a")
      (strCodes "https://ok.example/a") (by decide)⟩

/-- C9: for every input whose normalization fails, `inspectUrl` returns the
structured invalid-input result and contacts no remote source, for all
source outcomes and times. -/
theorem inspectUrl_invalid_no_network (rawUrl : List Nat)
    (h : normalizeL rawUrl = none) :
    ∀ (phish : Except (List Nat) PhishResult) (uh : Except (List Nat) CheckResult)
      (now : Nat),
      inspectUrlModel rawUrl phish uh now =
        (.invalid (strCodes "Enter a valid URL (example: https://example.com)."), false) := by
  intro phish uh now
  unfold inspectUrlModel
  rw [h]

/-- C9 (witness): the whitespace-only input `"   "` fails normalization and
produces the invalid result with no network contact. -/
theorem inspectUrl_invalid_witness :
    normalizeL (strCodes "   ") = none ∧
    inspectUrlModel (strCodes "   ") (.error []) (.error []) 5 =
      (.invalid (strCodes "Enter a valid URL (example: https://example.com)."), false) :=
  ⟨by decide, inspectUrl_invalid_no_network (strCodes "   ") (by decide) (.error []) (.error []) 5⟩

/-! ## Claim C8: the real-time check queries the full lowercase hostname -/

/-- C8: for every URL that normalizes successfully, the real-time reputation
check requests exactly the full lowercase hostname of the normalized URL —
`www.` NOT stripped (the requested key equals the parsed host verbatim, and
that host is lowercase-stable) — fails whenever the response status is not a
2xx success, and otherwise returns `flagged = true` iff the response body,
trimmed then lowercased, is the literal `"true"`. -/
theorem checkPhishFeed_queries_full_host (targetUrl n : List Nat)
    (h : normalizeL targetUrl = some n) :
    ∃ u, parseL n = some u ∧ lowerStr u.host = u.host ∧
      ∀ resp : HttpResp,
        (checkPhishFeedModel targetUrl resp).1 = some u.host ∧
        (respOk resp = false →
          (checkPhishFeedModel targetUrl resp).2 =
            .error (strCodes "phish.sinking.yachts responded with " ++
              natDigits resp.status)) ∧
        (respOk resp = true →
          (checkPhishFeedModel targetUrl resp).2 =
            .ok ⟨strCodes "phish.sinking.yachts",
              decide (lowerStr (trimL resp.body) = strCodes "true")⟩) := by
  obtain ⟨u, hu⟩ := normalizeL_parses h
  have hlow : lowerStr u.host = u.host := (parseL_props hu).2
  refine ⟨u, hu, hlow, ?_⟩
  intro resp
  have hbody : checkPhishFeedModel targetUrl resp =
      (some u.host,
        if respOk resp = true then
          .ok ⟨strCodes "phish.sinking.yachts",
            decide (lowerStr (trimL resp.body) = strCodes "true")⟩
        else
          .error (strCodes "phish.sinking.yachts responded with " ++
            natDigits resp.status)) := by
    unfold checkPhishFeedModel
    rw [h]
    dsimp only
    rw [hu]
    dsimp only
    rw [hlow]
    by_cases hok : respOk resp = true
    · rw [if_pos hok, if_pos hok]
    · rw [if_neg hok, if_neg hok]
  refine ⟨?_, ?_, ?_⟩
  · rw [hbody]
  · intro hok
    rw [hbody]
    dsimp only
    rw [if_neg (by rw [hok]; exact Bool.false_ne_true)]
  · intro hok
    rw [hbody]
    dsimp only
    rw [if_pos hok]

/-- C8 (witness): checking `"https://WWW.Phish.example/x"` requests the full
host `www.phish.example` (the `www.` kept), a 404 fails, and a 200 with body
`"  TRUE  "` yields `flagged = true`. -/
theorem checkPhishFeed_witness :
    normalizeL (strCodes "https://WWW.Phish.example/x") =
      some (strCodes "https://www.phish.example/x") ∧
    (∃ u, parseL (strCodes "https://www.phish.example/x") = some u ∧
      lowerStr u.host = u.host ∧
      ∀ resp : HttpResp,
        (checkPhishFeedModel (strCodes "https://WWW.Phish.example/x") resp).1 =
          some u.host ∧
        (respOk resp = false →
          (checkPhishFeedModel (strCodes "https://WWW.Phish.example/x") resp).2 =
            .error (strCodes "phish.sinking.yachts responded with " ++
              natDigits resp.status)) ∧
        (respOk resp = true →
          (checkPhishFeedModel (strCodes "https://WWW.Phish.example/x") resp).2 =
            .ok ⟨strCodes "phish.sinking.yachts",
              decide (lowerStr (trimL resp.body) = strCodes "true")⟩)) ∧
    (checkPhishFeedModel (strCodes "https://WWW.Phish.example/x")
        ⟨200, strCodes "  TRUE  "⟩).2 =
      .ok ⟨strCodes "phish.sinking.yachts", true⟩ ∧
    (checkPhishFeedModel (strCodes "https://WWW.Phish.example/x")
        ⟨200, strCodes "  TRUE  "⟩).1 = some (strCodes "www.phish.example") :=
  ⟨by decide,
    checkPhishFeed_queries_full_host (strCodes "https://WWW.Phish.example/x")
      (strCodes "https://www.phish.example/x") (by decide),
    by decide, by decide⟩

/-! ## Claim C7: `inspectText` counts, caps and orders extracted URLs -/

theorem dedupKeep_nodup (l : List (List Nat)) (seen : List (List Nat)) :
    (dedupKeep seen l).Nodup ∧ ∀ x ∈ dedupKeep seen l, x ∉ seen := by
  induction l generalizing seen with
  | nil => exact ⟨List.nodup_nil, by simp [dedupKeep]⟩
  | cons x xs ih =>
    by_cases hx : x ∈ seen
    · rw [show dedupKeep seen (x :: xs) = dedupKeep seen xs by
        unfold dedupKeep; rw [if_pos hx]; cases xs <;> rfl]
      exact ih seen
    · rw [show dedupKeep seen (x :: xs) = x :: dedupKeep (x :: seen) xs by
        unfold dedupKeep; rw [if_neg hx]; cases xs <;> rfl]
      obtain ⟨n1, n2⟩ := ih (x :: seen)
      refine ⟨List.nodup_cons.mpr ⟨fun hc => ?_, n1⟩, ?_⟩
      · exact n2 x hc (by simp)
      · intro y hy
        rcases List.mem_cons.mp hy with rfl | hy
        · exact hx
        · intro hys
          exact n2 y hy (by simp [hys])

/-- C7: for every input text, `inspectText` reports `found` equal to the
number of distinct normalized URLs extracted (pre-cap; the extracted list
has no duplicates), returns one per-URL result per extracted URL up to the
cap of 6 in extraction (first-occurrence) order, sets `truncated` iff more
than 6 distinct URLs were found, and always reports `ok`. -/
theorem inspectText_counts_and_caps {α : Type} (f : List Nat → α) (text : List Nat) :
    (inspectTextModel f text).found = (extractUrlsModel text).length ∧
    (inspectTextModel f text).urls = ((extractUrlsModel text).take 6).map f ∧
    ((inspectTextModel f text).truncated = true ↔ 6 < (extractUrlsModel text).length) ∧
    (extractUrlsModel text).Nodup ∧
    (inspectTextModel f text).ok = true := by
  refine ⟨rfl, rfl, ?_, ?_, rfl⟩
  · show decide ((extractUrlsModel text).length >
        ((extractUrlsModel text).take MAX_TEXT_URLS).length) = true ↔ _
    rw [decide_eq_true_eq, List.length_take]
    unfold MAX_TEXT_URLS
    omega
  · unfold extractUrlsModel
    by_cases ht : text = []
    · rw [if_pos ht]
      exact List.nodup_nil
    · rw [if_neg ht]
      exact (dedupKeep_nodup _ []).1
